import Mathlib

/-!
Verification of the gbe-nexus core: shallow embedding of the jobs domain
(state machines, validated ids, DAG definition), the transport envelope and
domain payload wire forms, the in-memory transport's consumer-group
operations (batch collection, ack/nak/dead-letter, retention trim), and the
Redis state store's compare-and-swap script.

Rust collections are modeled as follows: `Vec<T>` as `List T`,
`HashMap<K, V>` as an association list `List (K × V)` (lookup finds the
first binding; the code never stores duplicate keys), `HashSet<String>` as
`Finset String`, `VecDeque<String>` as `List String` (pop_front = head,
push_back = append), `Bytes` as `List Nat` (one `Nat` per byte),
`u32`/`u64`/`usize` as `Nat` (the quantities involved never overflow their
Rust types), `Option`/`Result` as `Option`/`Except`.  Clock reads and ULID
generation are passed in as explicit parameters.
-/

set_option maxHeartbeats 1000000

deriving instance DecidableEq for Except

namespace GbeNexus

/-! ## Jobs domain: errors (crates/jobs-domain/src/error.rs) -/

/-- Error enum of the jobs domain crate.  `invalidTransition` carries the
Rust `Debug` renderings of the two states, `unknownDependency` the task and
the offending dependency name. -/
inductive JobsDomainError where
  | invalidJobId : String → JobsDomainError
  | invalidTaskId : String → JobsDomainError
  | invalidOrgId : String → JobsDomainError
  | invalidTaskType : String → JobsDomainError
  | invalidTransition : String → String → JobsDomainError
  | unknownDependency : String → String → JobsDomainError
  | cyclicDependency : JobsDomainError
  | validationFailed : String → JobsDomainError
deriving DecidableEq, Repr

/-! ## Jobs domain: state machines (crates/jobs-domain/src/state.rs) -/

/-- Job-level state machine. -/
inductive JobState where
  | pending
  | running
  | completed
  | failed
  | cancelled
deriving DecidableEq, Fintype, Repr

/-- `JobState::can_transition_to`: the `matches!` table of allowed job
transitions. -/
def JobState.can_transition_to : JobState → JobState → Bool
  | .pending, .running => true
  | .running, .completed => true
  | .running, .failed => true
  | .pending, .cancelled => true
  | .running, .cancelled => true
  | _, _ => false

/-- `JobState::is_terminal`. -/
def JobState.is_terminal : JobState → Bool
  | .completed => true
  | .failed => true
  | .cancelled => true
  | _ => false

/-- Rust `Debug` rendering of a job state (used in the `format!("{self:?}")`
calls of `transition_to`). -/
def JobState.debugStr : JobState → String
  | .pending => "Pending"
  | .running => "Running"
  | .completed => "Completed"
  | .failed => "Failed"
  | .cancelled => "Cancelled"

/-- `JobState::transition_to`: `Ok(next)` when the table allows the pair,
`InvalidTransition{from,to}` otherwise (the receiver is taken by value, so
the stored state is never mutated on failure). -/
def JobState.transition_to (s next : JobState) : Except JobsDomainError JobState :=
  if s.can_transition_to next then .ok next
  else .error (.invalidTransition s.debugStr next.debugStr)

/-- `JobState::as_str`: lowercase wire form. -/
def JobState.as_str : JobState → String
  | .pending => "pending"
  | .running => "running"
  | .completed => "completed"
  | .failed => "failed"
  | .cancelled => "cancelled"

/-- Task-level state machine. -/
inductive TaskState where
  | blocked
  | pending
  | claimed
  | running
  | completed
  | failed
  | cancelled
deriving DecidableEq, Fintype, Repr

/-- `TaskState::can_transition_to`: the `matches!` table of allowed task
transitions (normal flow, watcher retries, cancel from any non-terminal). -/
def TaskState.can_transition_to : TaskState → TaskState → Bool
  | .blocked, .pending => true
  | .pending, .claimed => true
  | .claimed, .running => true
  | .running, .completed => true
  | .running, .failed => true
  | .claimed, .pending => true
  | .running, .pending => true
  | .blocked, .cancelled => true
  | .pending, .cancelled => true
  | .claimed, .cancelled => true
  | .running, .cancelled => true
  | _, _ => false

/-- `TaskState::is_terminal`. -/
def TaskState.is_terminal : TaskState → Bool
  | .completed => true
  | .failed => true
  | .cancelled => true
  | _ => false

/-- Rust `Debug` rendering of a task state. -/
def TaskState.debugStr : TaskState → String
  | .blocked => "Blocked"
  | .pending => "Pending"
  | .claimed => "Claimed"
  | .running => "Running"
  | .completed => "Completed"
  | .failed => "Failed"
  | .cancelled => "Cancelled"

/-- `TaskState::transition_to`. -/
def TaskState.transition_to (s next : TaskState) : Except JobsDomainError TaskState :=
  if s.can_transition_to next then .ok next
  else .error (.invalidTransition s.debugStr next.debugStr)

/-- `TaskState::as_str`: lowercase wire form. -/
def TaskState.as_str : TaskState → String
  | .blocked => "blocked"
  | .pending => "pending"
  | .claimed => "claimed"
  | .running => "running"
  | .completed => "completed"
  | .failed => "failed"
  | .cancelled => "cancelled"

/-- The job transition table as listed by the specification. -/
def jobTransitionTable : List (JobState × JobState) :=
  [(.pending, .running), (.pending, .cancelled),
   (.running, .completed), (.running, .failed), (.running, .cancelled)]

/-- The task transition table as listed by the specification. -/
def taskTransitionTable : List (TaskState × TaskState) :=
  [(.blocked, .pending), (.blocked, .cancelled),
   (.pending, .claimed), (.pending, .cancelled),
   (.claimed, .running), (.claimed, .pending), (.claimed, .cancelled),
   (.running, .completed), (.running, .failed), (.running, .pending),
   (.running, .cancelled)]

/-! ## Jobs domain: validated ids (crates/jobs-domain/src/ids.rs) -/

/-- Character predicate of `is_valid_slug`: the source calls
`char::is_alphanumeric() || c == '-' || c == '_'`.  Rust's
`is_alphanumeric` is Unicode-aware; this model uses its ASCII fragment
(letters and digits), which coincides with the source on every ASCII
string — the id theorems below are stated over ASCII inputs. -/
def rustIsSlugChar (c : Char) : Bool :=
  c.isAlpha || c.isDigit || c == '-' || c == '_'

/-- `is_valid_slug`: non-empty, at most 64 characters, every character
alphanumeric, `-` or `_`.  Rust's `str::len` counts UTF-8 bytes; on the
ASCII strings this development quantifies over it equals the character
count used here. -/
def is_valid_slug (s : String) : Bool :=
  !s.data.isEmpty && s.data.length ≤ 64 && s.data.all rustIsSlugChar

/-- Model of `str::starts_with` on strings. -/
def rustStartsWith (s pre : String) : Bool :=
  s.data.take pre.data.length == pre.data

/-- `is_valid_prefixed_id`: the exact prefix plus the slug check on the
whole string. -/
def is_valid_prefixed_id (s pre : String) : Bool :=
  rustStartsWith s pre && is_valid_slug s

/-- `JobId` newtype (generated by the `validated_id!` macro with prefix
`"job_"`). -/
structure JobId where
  raw : String
deriving DecidableEq, Repr

/-- `JobId::new`. -/
def JobId.new (raw : String) : Except JobsDomainError JobId :=
  if is_valid_prefixed_id raw "job_" then .ok ⟨raw⟩
  else .error (.invalidJobId raw)

/-- `TaskId` newtype (prefix `"task_"`). -/
structure TaskId where
  raw : String
deriving DecidableEq, Repr

/-- `TaskId::new`. -/
def TaskId.new (raw : String) : Except JobsDomainError TaskId :=
  if is_valid_prefixed_id raw "task_" then .ok ⟨raw⟩
  else .error (.invalidTaskId raw)

/-- `OrgId` newtype (prefix `"org_"`). -/
structure OrgId where
  raw : String
deriving DecidableEq, Repr

/-- `OrgId::new`. -/
def OrgId.new (raw : String) : Except JobsDomainError OrgId :=
  if is_valid_prefixed_id raw "org_" then .ok ⟨raw⟩
  else .error (.invalidOrgId raw)

/-! ## Jobs domain: job definition and DAG (crates/jobs-domain/src/definition.rs)

`validate` and `topological_order` iterate a `HashMap<&str, usize>` to build
the initial queue of zero-in-degree tasks; a `HashMap`'s iteration order is
unspecified.  The loop itself is embedded as `kahnLoop`, parameterised by
the initial queue; `canonicalQueue` fixes task-list order as one admissible
iteration order, and the C6 theorem exhibits two admissible orders with
different outputs. -/

/-- `TaskDefinition`: one task of a job.  `params` is the flattened
string-to-string parameter map. -/
structure TaskDefinition where
  name : String
  task_type : String
  depends_on : List String
  params : List (String × String)
  timeout_secs : Option Nat
  max_retries : Option Nat
deriving DecidableEq, Repr

/-- `JobDefinition`: the root job definition. -/
structure JobDefinition where
  v : Nat
  name : String
  job_type : String
  tasks : List TaskDefinition
deriving DecidableEq, Repr

/-- The task names of a task list, in task-list order. -/
def taskNames (tasks : List TaskDefinition) : List String :=
  tasks.map (·.name)

/-- The initial `in_degree` map: each task name bound to the length of its
`depends_on` list (collected from the task list; the map form matters only
through `lookup`). -/
def inDeg0 (tasks : List TaskDefinition) : List (String × Nat) :=
  tasks.map (fun t => (t.name, t.depends_on.length))

/-- The initial queue of zero-in-degree task names, in task-list order —
one admissible iteration order of the source's `HashMap` (see the header
note and C6). -/
def canonicalQueue (tasks : List TaskDefinition) : List String :=
  (tasks.filter (fun t => t.depends_on.length = 0)).map (·.name)

/-- `in_degree.get_mut(name)` followed by `*deg -= 1`: decrement the first
binding of `name`, returning the new map and `some` of the new value (or
`none` when the key is absent, in which case the map is unchanged and
nothing is enqueued — the `if let Some` guard).  The subtraction is `Nat`
truncated; the loop invariants below show the decremented value is always
positive on inputs that reach the loop. -/
def updateDeg : List (String × Nat) → String → List (String × Nat) × Option Nat
  | [], _ => ([], none)
  | (k, v) :: rest, name =>
    if k = name then ((k, v - 1) :: rest, some (v - 1))
    else ((k, v) :: (updateDeg rest name).1, (updateDeg rest name).2)

/-- The body of `for task in &self.tasks` inside the Kahn loop: if the
popped `node` is among the task's dependencies, decrement the task's
in-degree and enqueue the task name when the degree hits zero. -/
def kahnStep (node : String) (acc : List (String × Nat) × List String)
    (t : TaskDefinition) : List (String × Nat) × List String :=
  if node ∈ t.depends_on then
    ((updateDeg acc.1 t.name).1,
     if (updateDeg acc.1 t.name).2 = some 0 then acc.2 ++ [t.name] else acc.2)
  else acc

/-- Processing one popped node: fold `kahnStep` over the task list in
task-list order (this is why ties arising during the traversal come out in
insertion order). -/
def processNode (tasks : List TaskDefinition) (node : String)
    (st : List (String × Nat) × List String) : List (String × Nat) × List String :=
  tasks.foldl (kahnStep node) st

/-- The `while let Some(node) = queue.pop_front()` loop, collecting popped
names.  The source loop has no fuel; `tasks.length` iterations are enough
for every state reachable from the checks preceding the loop (each pop
consumes a distinct task name — proved by the invariants below), so the
fueled form agrees with the source there. -/
def kahnLoop (tasks : List TaskDefinition) :
    Nat → List (String × Nat) → List String → List String → List String
  | 0, _, _, order => order
  | fuel + 1, inDeg, queue, order =>
    match queue with
    | [] => order
    | node :: rest =>
      let st := processNode tasks node (inDeg, rest)
      kahnLoop tasks fuel st.1 st.2 (order ++ [node])

/-- One full Kahn traversal from a given initial queue.  `validate` counts
the visited nodes of exactly this traversal; `topological_order` returns
its output. -/
def kahnRunWith (tasks : List TaskDefinition) (q0 : List String) : List String :=
  kahnLoop tasks tasks.length (inDeg0 tasks) q0 []

/-- The duplicate-name scan: the source inserts each task name into a
`HashSet` and reports the first name whose insert finds it already
present. -/
def firstDupAux (seen : List String) : List String → Option String
  | [] => none
  | x :: xs => if x ∈ seen then some x else firstDupAux (x :: seen) xs

/-- The per-task dependency checks, in task order: first dependency not
naming a sibling yields `UnknownDependency`; then a self-dependency yields
`CyclicDependency`. -/
def depCheckAux (names : List String) : List TaskDefinition → Option JobsDomainError
  | [] => none
  | t :: ts =>
    match t.depends_on.find? (fun d => !(d ∈ names : Bool)) with
    | some d => some (.unknownDependency t.name d)
    | none =>
      if t.name ∈ t.depends_on then some .cyclicDependency
      else depCheckAux names ts

/-- `JobDefinition::validate`: empty task list, duplicate names, unknown
dependencies and self-dependencies are rejected in that order; then a Kahn
traversal that visits fewer than `|tasks|` nodes reports
`CyclicDependency`.  The visited count is the length of `kahnRunWith`. -/
def JobDefinition.validate (J : JobDefinition) : Except JobsDomainError Unit :=
  if J.tasks.isEmpty then
    .error (.validationFailed "job must have at least one task")
  else
    match firstDupAux [] (taskNames J.tasks) with
    | some n => .error (.validationFailed ("duplicate task name: " ++ n))
    | none =>
      match depCheckAux (taskNames J.tasks) J.tasks with
      | some e => .error e
      | none =>
        if (kahnRunWith J.tasks (canonicalQueue J.tasks)).length ≠ J.tasks.length then
          .error .cyclicDependency
        else .ok ()

/-- `JobDefinition::topological_order`: validate, then return the names in
traversal order. -/
def JobDefinition.topological_order (J : JobDefinition) :
    Except JobsDomainError (List String) :=
  match J.validate with
  | .error e => .error e
  | .ok _ => .ok (kahnRunWith J.tasks (canonicalQueue J.tasks))

/-- `JobDefinition::roots`: names of the tasks with no dependencies. -/
def JobDefinition.roots (J : JobDefinition) : List String :=
  (J.tasks.filter (fun t => t.depends_on.isEmpty)).map (·.name)

/-- The three-task chain of the specification's end-to-end scenario 1
(also the source's `simple_dag` test fixture). -/
def chainJob : JobDefinition :=
  { v := 1, name := "Test Job", job_type := "test-job",
    tasks :=
      [{ name := "fetch", task_type := "data-fetch", depends_on := [],
         params := [], timeout_secs := some 120, max_retries := none },
       { name := "transform", task_type := "data-transform", depends_on := ["fetch"],
         params := [], timeout_secs := none, max_retries := some 3 },
       { name := "send", task_type := "email-send", depends_on := ["transform"],
         params := [], timeout_secs := none, max_retries := none }] }

/-- A job with two roots (the source's `parallel_tasks_both_root`
fixture), used by the C6 theorem. -/
def parallelTasks : List TaskDefinition :=
  [{ name := "a", task_type := "work", depends_on := [],
     params := [], timeout_secs := none, max_retries := none },
   { name := "b", task_type := "work", depends_on := [],
     params := [], timeout_secs := none, max_retries := none },
   { name := "c", task_type := "work", depends_on := ["a", "b"],
     params := [], timeout_secs := none, max_retries := none }]

/-! ## Envelope and domain payload (crates/transport/src/envelope.rs,
crates/nexus/src/payload.rs)

JSON wire forms are modeled at the `serde_json::Value` level: a value tree
`Json` stands for the serialized document (the text encoding of a value
tree is serde_json's lossless concern).  Numbers are `Nat`, which covers
every numeric field here (`u32`/`u64`). -/

/-- A JSON value tree. -/
inductive Json where
  | jnull : Json
  | jbool : Bool → Json
  | jnum : Nat → Json
  | jstr : String → Json
  | jarr : List Json → Json
  | jobj : List (String × Json) → Json

/-- Object-field access on a value tree. -/
def Json.getField : Json → String → Option Json
  | .jobj fields, k => fields.lookup k
  | _, _ => none

/-- The base64 STANDARD alphabet used by the `base64` crate's
`general_purpose::STANDARD` engine. -/
def b64Alphabet : List Char :=
  "ABCDEFGHIJKLMNOPQRSTUVWXYZabcdefghijklmnopqrstuvwxyz0123456789+/".data

/-- Value-to-character table lookup (only applied below 64). -/
def sextetChar (n : Nat) : Char := b64Alphabet.getD n 'A'

/-- Character-to-value table lookup; `none` off the alphabet. -/
def charSextet (c : Char) : Option Nat := b64Alphabet.findIdx? (fun x => x == c)

/-- Base64 STANDARD encoding with padding: three bytes to four characters,
a final one- or two-byte group padded with `=`. -/
def b64encode : List Nat → List Char
  | [] => []
  | [a] => [sextetChar (a / 4), sextetChar (a % 4 * 16), '=', '=']
  | [a, b] =>
    [sextetChar (a / 4), sextetChar (a % 4 * 16 + b / 16), sextetChar (b % 16 * 4), '=']
  | a :: b :: c :: rest =>
    sextetChar (a / 4) :: sextetChar (a % 4 * 16 + b / 16)
      :: sextetChar (b % 16 * 4 + c / 64) :: sextetChar (c % 64) :: b64encode rest

/-- Base64 STANDARD decoding: four-character groups, `=`-padding only in a
final group, anything else rejected. -/
def b64decode : List Char → Option (List Nat)
  | [] => some []
  | c1 :: c2 :: c3 :: c4 :: rest =>
    match charSextet c1, charSextet c2 with
    | some s1, some s2 =>
      if c3 = '=' then
        if c4 = '=' ∧ rest = [] then some [s1 * 4 + s2 / 16] else none
      else
        match charSextet c3 with
        | some s3 =>
          if c4 = '=' then
            if rest = [] then some [s1 * 4 + s2 / 16, s2 % 16 * 16 + s3 / 4] else none
          else
            match charSextet c4 with
            | some s4 =>
              match b64decode rest with
              | some bs =>
                some ((s1 * 4 + s2 / 16) :: (s2 % 16 * 16 + s3 / 4)
                  :: (s3 % 4 * 64 + s4) :: bs)
              | none => none
            | none => none
        | none => none
    | _, _ => none
  | _ => none

/-- `Envelope`: transport-generated message id (ULID string), routing
subject, publish timestamp in unix milliseconds, optional trace id, opaque
payload bytes. -/
structure Envelope where
  message_id : String
  subject : String
  timestamp : Nat
  trace_id : Option String
  payload : List Nat
deriving DecidableEq, Repr

/-- `Envelope::new`, with the ULID generator and clock passed in
explicitly. -/
def Envelope.new (subject : String) (payload : List Nat) (trace_id : Option String)
    (newId : String) (now : Nat) : Envelope :=
  { message_id := newId, subject := subject, timestamp := now,
    trace_id := trace_id, payload := payload }

/-- Envelope serialization (serde derive, struct field order): `trace_id`
omitted when `None` (`skip_serializing_if`), payload base64-encoded into a
string field. -/
def Envelope.toJson (e : Envelope) : Json :=
  .jobj ([("message_id", .jstr e.message_id), ("subject", .jstr e.subject),
          ("timestamp", .jnum e.timestamp)]
    ++ (match e.trace_id with
        | some t => [("trace_id", .jstr t)]
        | none => [])
    ++ [("payload", .jstr ⟨b64encode e.payload⟩)])

/-- Envelope deserialization: the required fields with their expected
shapes, payload base64-decoded, missing `trace_id` read as `None`. -/
def Envelope.fromJson (j : Json) : Option Envelope :=
  match j.getField "message_id", j.getField "subject",
      j.getField "timestamp", j.getField "payload" with
  | some (.jstr mid), some (.jstr subj), some (.jnum ts), some (.jstr p) =>
    match b64decode p.data with
    | some bytes =>
      match j.getField "trace_id" with
      | some (.jstr t) => some ⟨mid, subj, ts, some t, bytes⟩
      | some _ => none
      | none => some ⟨mid, subj, ts, none, bytes⟩
    | none => none
  | _, _, _, _ => none

/-- `DomainPayload<T>`: schema version, event timestamp, dedup id, typed
body. -/
structure DomainPayload (T : Type) where
  v : Nat
  ts : Nat
  id : String
  data : T
deriving DecidableEq, Repr

/-- `DomainPayload::new(v, id, data)` sets `ts` to the current unix
milliseconds, passed in explicitly. -/
def DomainPayload.new {T : Type} (now : Nat) (v : Nat) (id : String) (data : T) :
    DomainPayload T :=
  { v := v, ts := now, id := id, data := data }

/-- `to_bytes` at the value level, parameterised by the body's serializer. -/
def DomainPayload.toJson {T : Type} (enc : T → Json) (p : DomainPayload T) : Json :=
  .jobj [("v", .jnum p.v), ("ts", .jnum p.ts), ("id", .jstr p.id), ("data", enc p.data)]

/-- `from_bytes` at the value level, parameterised by the body's
deserializer. -/
def DomainPayload.fromJson {T : Type} (dec : Json → Option T) (j : Json) :
    Option (DomainPayload T) :=
  match j.getField "v", j.getField "ts", j.getField "id", j.getField "data" with
  | some (.jnum v), some (.jnum ts), some (.jstr id), some d =>
    match dec d with
    | some data => some ⟨v, ts, id, data⟩
    | none => none
  | _, _, _, _ => none

/-! ## In-memory transport
(crates/nexus-memory/src/store.rs, consumer.rs, message.rs, transport.rs)

The per-subject state behind the transport mutex.  `Notify`, the
cancellation token and the driver's sleep are scheduling machinery with no
bearing on the embedded state transitions; the stream `config` is only
stored.  Clock reads and ULID generation are explicit parameters. -/

/-- `SubscribeOpts`, restricted to the two fields the embedded operations
read (`ack_timeout` and `start_from` drive code paths outside these
claims). -/
structure SubscribeOpts where
  batch_size : Nat
  max_inflight : Nat
deriving DecidableEq, Repr

/-- `ConsumerGroup`: cursor (index of the last delivered message, `none`
meaning before the first), pending (unacked) id set, FIFO redelivery
queue. -/
structure ConsumerGroup where
  cursor : Option Nat
  pending : Finset String
  redeliver : List String
deriving DecidableEq

/-- `StreamData`: ordered message log, id→index map, consumer groups. -/
structure StreamData where
  messages : List Envelope
  id_index : List (String × Nat)
  groups : List (String × ConsumerGroup)
deriving DecidableEq

/-- A fresh stream, as made by `get_or_create_stream`. -/
def StreamData.empty : StreamData :=
  { messages := [], id_index := [], groups := [] }

/-- `StreamStore`: the per-subject map guarded by the transport mutex. -/
structure StreamStore where
  streams : List (String × StreamData)
deriving DecidableEq

/-- Replace the value at a key, or append a fresh binding built from
`none` (models `HashMap::entry(..).or_insert_with(..)` /
`get_or_create_stream`). -/
def assocUpsert {α : Type} : List (String × α) → String → (Option α → α) → List (String × α)
  | [], k, f => [(k, f none)]
  | (k2, v) :: rest, k, f =>
    if k2 = k then (k2, f (some v)) :: rest else (k2, v) :: assocUpsert rest k f

/-- Update the value at a key when present (models chained
`HashMap::get_mut`). -/
def assocAdjust {α : Type} : List (String × α) → String → (α → α) → List (String × α)
  | [], _, _ => []
  | (k2, v) :: rest, k, f =>
    if k2 = k then (k2, f v) :: rest else (k2, v) :: assocAdjust rest k f

/-- Split a character list at every occurrence of `sep` (the semantics of
Rust's `str::split(char)`: `n` separators yield `n + 1` pieces, empty
pieces included). -/
def splitOnChar (sep : Char) : List Char → List (List Char)
  | [] => [[]]
  | c :: rest =>
    if c = sep then [] :: splitOnChar sep rest
    else match splitOnChar sep rest with
      | [] => [[c]]
      | t :: ts => (c :: t) :: ts

/-- `extract_domain`: the second dot-separated token of the subject
(`subject.split('.').nth(1)`), `"unknown"` when there is no second
token. -/
def extract_domain (subject : String) : String :=
  match (splitOnChar '.' subject.data).get? 1 with
  | some d => ⟨d⟩
  | none => "unknown"

/-- Phase 1 of `collect_batch`: while the batch is below `takeN`, pop ids
from the redelivery FIFO and resolve each through the id index; an id no
longer in the index is dropped.  The source indexes `messages[idx]`
unconditionally; the store invariant keeps the index in range, and an
out-of-range index contributes nothing here. -/
def redeliverPhase (idx : List (String × Nat)) (msgs : List Envelope) (takeN : Nat) :
    List String → List Envelope → List Envelope × List String
  | [], batch => (batch, [])
  | msg_id :: rest, batch =>
    if batch.length < takeN then
      match idx.lookup msg_id with
      | some i =>
        match msgs.get? i with
        | some env => redeliverPhase idx msgs takeN rest (batch ++ [env])
        | none => redeliverPhase idx msgs takeN rest batch
      | none => redeliverPhase idx msgs takeN rest batch
    else (batch, msg_id :: rest)

/-- One index step of phase 2 of `collect_batch`: deliver the envelope at
position `i` unless its id is already pending, inserting the id and
advancing the cursor when chosen. -/
def cursorStep (msgs : List Envelope) (acc : List Envelope × ConsumerGroup) (i : Nat) :
    List Envelope × ConsumerGroup :=
  match msgs.get? i with
  | some env =>
    if env.message_id ∈ acc.2.pending then acc
    else (acc.1 ++ [env],
      { cursor := some i, pending := insert env.message_id acc.2.pending,
        redeliver := acc.2.redeliver })
  | none => acc

/-- Phase 2 of `collect_batch`: walk the log over
`start_idx..end_idx` with `start_idx = cursor + 1` (0 when absent) and
`end_idx = (start_idx + take − batch.len()).min(len)`; skipped
already-pending ids consume range positions, as in the source. -/
def cursorPhase (msgs : List Envelope) (takeN : Nat) (g : ConsumerGroup)
    (batch : List Envelope) : List Envelope × ConsumerGroup :=
  let start := match g.cursor with
    | some c => c + 1
    | none => 0
  let stop := min (start + takeN - batch.length) msgs.length
  (List.range' start (stop - start)).foldl (cursorStep msgs) (batch, g)

/-- `collect_batch` under the store lock: return empty under backpressure
(`pending.len() ≥ max_inflight`); otherwise
`take = min(batch_size, max_inflight − pending.len())`, the redelivery
phase, then — only while still below `take` — the cursor phase. -/
def collect_batch (stream : StreamData) (g : ConsumerGroup) (opts : SubscribeOpts) :
    List Envelope × ConsumerGroup :=
  if opts.max_inflight ≤ g.pending.card then ([], g)
  else
    let takeN := min opts.batch_size (opts.max_inflight - g.pending.card)
    let res := redeliverPhase stream.id_index stream.messages takeN g.redeliver []
    let g1 : ConsumerGroup :=
      { cursor := g.cursor, pending := g.pending, redeliver := res.2 }
    if res.1.length < takeN then cursorPhase stream.messages takeN g1 res.1
    else (res.1, g1)

/-- The store-level `collect_batch`: locate the stream and group (absent
either way means an empty batch and no change) and write the updated group
back. -/
def collect_batch_store (store : StreamStore) (subject group : String)
    (opts : SubscribeOpts) : List Envelope × StreamStore :=
  match store.streams.lookup subject with
  | none => ([], store)
  | some s =>
    match s.groups.lookup group with
    | none => ([], store)
    | some g =>
      let res := collect_batch s g opts
      (res.1, ⟨assocAdjust store.streams subject (fun s2 =>
        { messages := s2.messages, id_index := s2.id_index,
          groups := assocAdjust s2.groups group (fun _ => res.2) })⟩)

/-- A consumer run for the backpressure-cap argument: at each step the
driver sees some stream state (publishes may have appended since the last
batch) and collects a batch; the handler never disposes of anything, so
between batches the group changes only through `collect_batch`.  Returns
the final group and the set of every delivered message id. -/
def runSteps (opts : SubscribeOpts) :
    List StreamData → ConsumerGroup → Finset String → ConsumerGroup × Finset String
  | [], g, seen => (g, seen)
  | s :: rest, g, seen =>
    let res := collect_batch s g opts
    runSteps opts rest res.2 (seen ∪ (res.1.map (fun e => e.message_id)).toFinset)

/-- `MemoryMessage`: the handle a handler disposes of; `acked` is the
one-shot disposition flag. -/
structure MemoryMessage where
  envelope : Envelope
  subject : String
  group : String
  acked : Bool
deriving DecidableEq, Repr

/-- Group-level effect of `ack` and of the dead-letter cleanup: drop the
id from pending (`pending.remove`). -/
def ackGroup (id : String) (g : ConsumerGroup) : ConsumerGroup :=
  { cursor := g.cursor, pending := g.pending.erase id, redeliver := g.redeliver }

/-- Group-level effect of `nak`: push the id onto the redelivery FIFO;
pending is not touched. -/
def nakGroup (id : String) (g : ConsumerGroup) : ConsumerGroup :=
  { cursor := g.cursor, pending := g.pending, redeliver := g.redeliver ++ [id] }

/-- `MemoryMessage::ack`: a silent no-op after the first disposition;
otherwise remove the message id from the (subject, group) pending set. -/
def MemoryMessage.ack (m : MemoryMessage) (st : StreamStore) :
    MemoryMessage × StreamStore :=
  if m.acked then (m, st)
  else ({ m with acked := true },
    ⟨assocAdjust st.streams m.subject (fun s =>
      { messages := s.messages, id_index := s.id_index,
        groups := assocAdjust s.groups m.group (ackGroup m.envelope.message_id) })⟩)

/-- `MemoryMessage::nak`: a silent no-op after the first disposition;
otherwise push the message id onto the group's redelivery queue (the
`_delay` argument is ignored by the source). -/
def MemoryMessage.nak (m : MemoryMessage) (st : StreamStore) :
    MemoryMessage × StreamStore :=
  if m.acked then (m, st)
  else ({ m with acked := true },
    ⟨assocAdjust st.streams m.subject (fun s =>
      { messages := s.messages, id_index := s.id_index,
        groups := assocAdjust s.groups m.group (nakGroup m.envelope.message_id) })⟩)

/-- Hexadecimal digit characters for JSON control escapes. -/
def hexDigit (n : Nat) : Char := "0123456789abcdef".data.getD n '0'

/-- serde_json string escaping: quote and backslash escaped, the short
control escapes, other control characters as `\u00XX`, everything else
literal. -/
def jsonEscapeChar (c : Char) : List Char :=
  if c = '"' then ['\\', '"']
  else if c = '\\' then ['\\', '\\']
  else if c = Char.ofNat 8 then ['\\', 'b']
  else if c = Char.ofNat 9 then ['\\', 't']
  else if c = Char.ofNat 10 then ['\\', 'n']
  else if c = Char.ofNat 12 then ['\\', 'f']
  else if c = Char.ofNat 13 then ['\\', 'r']
  else if c.toNat < 32 then
    ['\\', 'u', '0', '0', hexDigit (c.toNat / 16), hexDigit (c.toNat % 16)]
  else [c]

/-- A rendered JSON string literal. -/
def jsonRenderString (s : String) : List Char :=
  '"' :: (s.data.map jsonEscapeChar).join ++ ['"']

mutual

/-- Compact JSON rendering of a value tree (serde_json `to_string`),
object members in listed order. -/
def Json.render : Json → List Char
  | .jnull => "null".data
  | .jbool b => if b then "true".data else "false".data
  | .jnum n => (Nat.repr n).data
  | .jstr s => jsonRenderString s
  | .jarr xs => '[' :: (Json.renderItems xs ++ [']'])
  | .jobj fs => '\x7b' :: (Json.renderMembers fs ++ ['\x7d'])

/-- Comma-separated rendering of array items. -/
def Json.renderItems : List Json → List Char
  | [] => []
  | [x] => Json.render x
  | x :: y :: rest => Json.render x ++ ',' :: Json.renderItems (y :: rest)

/-- Comma-separated rendering of object members. -/
def Json.renderMembers : List (String × Json) → List Char
  | [] => []
  | [(k, v)] => jsonRenderString k ++ ':' :: Json.render v
  | (k, v) :: m :: rest =>
    jsonRenderString k ++ ':' :: Json.render v ++ ',' :: Json.renderMembers (m :: rest)

end

/-- UTF-8 encoding of one character. -/
def utf8EncodeChar (c : Char) : List Nat :=
  let n := c.toNat
  if n < 128 then [n]
  else if n < 2048 then [192 + n / 64, 128 + n % 64]
  else if n < 65536 then [224 + n / 4096, 128 + n / 64 % 64, 128 + n % 64]
  else [240 + n / 262144, 128 + n / 4096 % 64, 128 + n / 64 % 64, 128 + n % 64]

/-- UTF-8 bytes of a character list. -/
def charsUtf8 (cs : List Char) : List Nat := (cs.map utf8EncodeChar).join

/-- UTF-8 bytes of a string. -/
def strUtf8 (s : String) : List Nat := charsUtf8 s.data

/-- serde_json `Value` objects are `BTreeMap`s, so `to_value` followed by
`to_string` emits an envelope's members in alphabetical key order
(message_id, payload, subject, timestamp, trace_id — the last omitted when
`None` by `skip_serializing_if`). -/
def Envelope.toJsonSorted (e : Envelope) : Json :=
  .jobj ([("message_id", .jstr e.message_id),
          ("payload", .jstr ⟨b64encode e.payload⟩),
          ("subject", .jstr e.subject),
          ("timestamp", .jnum e.timestamp)]
    ++ (match e.trace_id with
        | some t => [("trace_id", .jstr t)]
        | none => []))

/-- The dead-letter payload bytes: the rendered JSON object
`\x7b"original_envelope": <envelope as JSON>, "reason": <reason>\x7d`
(member order is the `json!` macro's BTreeMap order, which is
alphabetical). -/
def deadLetterPayload (env : Envelope) (reason : String) : List Nat :=
  charsUtf8 (Json.render (.jobj
    [("original_envelope", env.toJsonSorted), ("reason", .jstr reason)]))

/-- `MemoryMessage::dead_letter`: a silent no-op after the first
disposition; otherwise build the dead-letter envelope (fresh ULID and
clock passed in), append it to the `gbe._deadletter.<domain>` log —
creating that stream when absent, recording the id at the pre-push index,
and notifying waiters — then remove the original message id from the
source group's pending set. -/
def MemoryMessage.dead_letter (m : MemoryMessage) (reason : String)
    (newId : String) (now : Nat) (st : StreamStore) : MemoryMessage × StreamStore :=
  if m.acked then (m, st)
  else
    let domain := extract_domain m.subject
    let dl_subject := "gbe._deadletter." ++ domain
    let dl_env : Envelope :=
      Envelope.new dl_subject (deadLetterPayload m.envelope reason)
        m.envelope.trace_id newId now
    let st1 : StreamStore := ⟨assocUpsert st.streams dl_subject (fun o =>
      let s := o.getD StreamData.empty
      { messages := s.messages ++ [dl_env],
        id_index := s.id_index ++ [(dl_env.message_id, s.messages.length)],
        groups := s.groups })⟩
    ({ m with acked := true },
     ⟨assocAdjust st1.streams m.subject (fun s =>
       { messages := s.messages, id_index := s.id_index,
         groups := assocAdjust s.groups m.group (ackGroup m.envelope.message_id) })⟩)

/-- `trim_stream` on one subject's data: count the expired prefix
(`timestamp ≤ cutoff`), and if non-empty drain it from the head, drop the
expired ids from every group's pending set, rebuild the id index over the
shifted remainder (the source's per-id removals are subsumed by the
`clear` and rebuild that follow them), and adjust every cursor: clear it
when it pointed into the expired prefix, shift it otherwise. -/
def trimStreamData (cutoff : Nat) (s : StreamData) : Nat × StreamData :=
  let expired := (s.messages.takeWhile (fun e => e.timestamp ≤ cutoff)).length
  if expired = 0 then (0, s)
  else
    let expiredIds := (s.messages.take expired).map (fun e => e.message_id)
    let msgs := s.messages.drop expired
    let idIndex := msgs.enum.map (fun p => (p.2.message_id, p.1))
    let groups := s.groups.map (fun p => (p.1,
      { cursor := match p.2.cursor with
          | some c => if c < expired then none else some (c - expired)
          | none => none,
        pending := expiredIds.foldl (fun pen id => pen.erase id) p.2.pending,
        redeliver := p.2.redeliver }))
    (expired, { messages := msgs, id_index := idIndex, groups := groups })

/-- `MemoryTransport::trim_stream`: cutoff is `now` minus `max_age`
(saturating, as `saturating_sub`); a non-existent subject removes
nothing and reports 0. -/
def trim_stream (now : Nat) (st : StreamStore) (subject : String) (max_age : Nat) :
    Nat × StreamStore :=
  let cutoff := now - max_age
  match st.streams.lookup subject with
  | none => (0, st)
  | some s =>
    let res := trimStreamData cutoff s
    (res.1, ⟨assocAdjust st.streams subject (fun _ => res.2)⟩)

/-! ## Redis state store CAS (crates/state-store-redis/src/store.rs)

The store's operations are Redis hash commands; a database restricted to
what they touch is a key → field → bytes map.  The CAS Lua script runs
atomically on the server, so its embedding is a single state
transition. -/

/-- A Redis database restricted to hashes. -/
abbrev RedisDb : Type := List (String × List (String × List Nat))

/-- `HGET key field`: `nil` when the key or the field is absent. -/
def redisHget (db : RedisDb) (key field : String) : Option (List Nat) :=
  match db.lookup key with
  | some h => h.lookup field
  | none => none

/-- `HSET key field value` (creates the key and field as needed). -/
def redisHset (db : RedisDb) (key field : String) (v : List Nat) : RedisDb :=
  assocUpsert db key (fun o => assocUpsert (o.getD []) field (fun _ => v))

/-- The `CAS_SCRIPT` Lua script: `HGET`, Lua `==` against the expected
bytes (false when `HGET` returned nil), and on a match `HSET` and return
1, otherwise return 0. -/
def casScript (db : RedisDb) (key field : String) (expected newv : List Nat) :
    Bool × RedisDb :=
  match redisHget db key field with
  | some cur =>
    if cur = expected then (true, redisHset db key field newv) else (false, db)
  | none => (false, db)

/-- `RedisStateStore::set_field` (an `HSET`). -/
def set_field (db : RedisDb) (key field : String) (v : List Nat) : RedisDb :=
  redisHset db key field v

/-- `RedisStateStore::get_field` (an `HGET`). -/
def get_field (db : RedisDb) (key field : String) : Option (List Nat) :=
  redisHget db key field

/-- `RedisStateStore::compare_and_swap`: invoke the script and report
whether it returned 1. -/
def compare_and_swap (db : RedisDb) (key field : String) (expected newv : List Nat) :
    Bool × RedisDb :=
  casScript db key field expected newv

/-- The consumer group registered for (subject, group), when present. -/
def groupOf (st : StreamStore) (subject group : String) : Option ConsumerGroup :=
  (st.streams.lookup subject).bind (fun s => s.groups.lookup group)

/-- The message log of a subject (empty when the stream does not exist). -/
def messagesOf (st : StreamStore) (subject : String) : List Envelope :=
  ((st.streams.lookup subject).map (fun s => s.messages)).getD []

/-- The id index of a subject (empty when the stream does not exist). -/
def idIndexOf (st : StreamStore) (subject : String) : List (String × Nat) :=
  ((st.streams.lookup subject).map (fun s => s.id_index)).getD []

/-- The id-index invariant of a stream: every index entry points at a
message carrying that id.  Publication, dead-lettering and trimming all
maintain it. -/
def IndexConsistent (stream : StreamData) : Prop :=
  ∀ id i, stream.id_index.lookup id = some i →
    ∃ env, stream.messages.get? i = some env ∧ env.message_id = id

/-- Number of already-emitted names that are dependencies of `t`: exactly
the number of decrements `t`'s in-degree has received once the names in
`order` have been popped (each popped name decrements `t` at most once). -/
def cnt (order : List String) (t : TaskDefinition) : Nat :=
  (order.filter (fun d => decide (d ∈ t.depends_on))).length

/-- Enqueue predicate of one `processNode` pass relative to the in-degree
map `m`: the task depends on `node` and its current in-degree is at most 1,
so the decrement lands on zero. -/
def enqueues (node : String) (m : List (String × Nat)) (t : TaskDefinition) : Bool :=
  decide (node ∈ t.depends_on) &&
    (match m.lookup t.name with
     | some v => decide (v ≤ 1)
     | none => false)

/-- The ordering property claimed for `topological_order`: every task
appears after all of its dependencies. -/
def DepsFirst (tasks : List TaskDefinition) (order : List String) : Prop :=
  ∀ (i : Nat) (h : i < order.length), ∀ t ∈ tasks, t.name = order.get ⟨i, h⟩ →
    ∀ d ∈ t.depends_on, d ∈ order.take i

/-- Invariant of the Kahn loop, relating the in-degree map, the queue and
the emitted prefix `order`. -/
structure KahnInv (tasks : List TaskDefinition) (inDeg : List (String × Nat))
    (queue order : List String) : Prop where
  keys : inDeg.map Prod.fst = taskNames tasks
  nodup : (order ++ queue).Nodup
  subset : ∀ x ∈ order ++ queue, x ∈ taskNames tasks
  deg : ∀ t ∈ tasks, inDeg.lookup t.name = some (t.depends_on.length - cnt order t)
  cntLe : ∀ t ∈ tasks, cnt order t ≤ t.depends_on.length
  zero : ∀ x ∈ order ++ queue, inDeg.lookup x = some 0
  depsFirst : DepsFirst tasks order

/-- C4: the two transition predicates agree exactly with the spec's tables,
`transition_to` returns `Ok(next)` exactly on table pairs and
`InvalidTransition{from,to}` otherwise (the state value itself is never
changed: the function is pure on a by-value receiver), and no transition
leaves a terminal state. -/
theorem c4_state_machine_transition_tables :
    (∀ s t : JobState, s.can_transition_to t = true ↔ (s, t) ∈ jobTransitionTable)
    ∧ (∀ s t : TaskState, s.can_transition_to t = true ↔ (s, t) ∈ taskTransitionTable)
    ∧ (∀ s t : JobState, (s, t) ∈ jobTransitionTable → s.transition_to t = .ok t)
    ∧ (∀ s t : JobState, (s, t) ∉ jobTransitionTable →
        s.transition_to t = .error (.invalidTransition s.debugStr t.debugStr))
    ∧ (∀ s t : TaskState, (s, t) ∈ taskTransitionTable → s.transition_to t = .ok t)
    ∧ (∀ s t : TaskState, (s, t) ∉ taskTransitionTable →
        s.transition_to t = .error (.invalidTransition s.debugStr t.debugStr))
    ∧ (∀ s t : JobState, s.is_terminal = true → s.can_transition_to t = false)
    ∧ (∀ s t : TaskState, s.is_terminal = true → s.can_transition_to t = false) := by
  refine ⟨?_, ?_, ?_, ?_, ?_, ?_, ?_, ?_⟩ <;> decide

/-- Witness for C4: the theorem applied at concrete states. -/
theorem c4_state_machine_transition_tables_witness :
    JobState.pending.transition_to JobState.running = Except.ok JobState.running
    ∧ JobState.completed.transition_to JobState.running
        = Except.error (JobsDomainError.invalidTransition "Completed" "Running")
    ∧ TaskState.running.transition_to TaskState.pending = Except.ok TaskState.pending
    ∧ TaskState.cancelled.can_transition_to TaskState.pending = false :=
  ⟨c4_state_machine_transition_tables.2.2.1 .pending .running (by decide),
   c4_state_machine_transition_tables.2.2.2.1 .completed .running (by decide),
   c4_state_machine_transition_tables.2.2.2.2.1 .running .pending (by decide),
   c4_state_machine_transition_tables.2.2.2.2.2.2.2 .cancelled .pending (by decide)⟩

/-- A list equals a stated prefix exactly when it extends it. -/
theorem take_eq_iff_append {α : Type} (l p : List α) :
    l.take p.length = p ↔ ∃ s, l = p ++ s := by
  constructor
  · intro h
    exact ⟨l.drop p.length, by conv_lhs => rw [← List.take_append_drop p.length l, h]⟩
  · rintro ⟨s, rfl⟩
    exact List.take_left p s

/-- The validity predicate behind each prefixed id constructor, spelled out:
the raw string extends the prefix, and the raw string is a slug (non-empty,
at most 64 characters, each alphanumeric, `-` or `_`). -/
theorem prefixed_id_valid_iff (raw pre : String) :
    is_valid_prefixed_id raw pre = true ↔
      (∃ suffix : List Char, raw.data = pre.data ++ suffix)
      ∧ raw.data ≠ [] ∧ raw.data.length ≤ 64
      ∧ ∀ c ∈ raw.data, rustIsSlugChar c = true := by
  unfold is_valid_prefixed_id rustStartsWith is_valid_slug
  simp only [Bool.and_eq_true, beq_iff_eq, Bool.not_eq_true', List.isEmpty_eq_false,
    List.all_eq_true, take_eq_iff_append, decide_eq_true_eq]
  tauto

/-- If the prefix is non-empty, extending it forces the raw string to be
non-empty, so that conjunct of `prefixed_id_valid_iff` is redundant. -/
theorem prefixed_id_valid_iff' (raw pre : String) (hpre : pre.data ≠ []) :
    is_valid_prefixed_id raw pre = true ↔
      (∃ suffix : List Char, raw.data = pre.data ++ suffix)
      ∧ raw.data.length ≤ 64
      ∧ ∀ c ∈ raw.data, rustIsSlugChar c = true := by
  rw [prefixed_id_valid_iff]
  constructor
  · rintro ⟨h1, _, h3, h4⟩
    exact ⟨h1, h3, h4⟩
  · rintro ⟨⟨suffix, hsuf⟩, h3, h4⟩
    refine ⟨⟨suffix, hsuf⟩, ?_, h3, h4⟩
    rw [hsuf]
    simp [hpre]

/-- C7 counterexample: the claim says the bare prefix with an empty suffix
is rejected, but each constructor accepts it (the source's own unit test
records `JobId::new("job_")` as `Ok`, commented "prefix only is valid
slug"). -/
theorem c7_counterexample_bare_prefix_accepted :
    JobId.new "job_" = Except.ok ⟨"job_"⟩
    ∧ TaskId.new "task_" = Except.ok ⟨"task_"⟩
    ∧ OrgId.new "org_" = Except.ok ⟨"org_"⟩ := by
  decide

/-- C7 amended: for each prefixed id type, `new(raw)` succeeds exactly when
`raw` starts with the exact prefix and is a non-empty string of at most 64
characters drawn from alphanumerics, `-` and `_` — the suffix after the
prefix may be empty — and on failure the corresponding `Invalid*Id(raw)`
error is returned.  Stated over ASCII inputs, where the model's character
predicate and length coincide with the source's Unicode/byte versions. -/
theorem c7_amended_prefixed_id_validation :
    ∀ raw : String, (∀ c ∈ raw.data, c.toNat < 128) →
      ((JobId.new raw = Except.ok ⟨raw⟩ ↔
          (∃ suffix : List Char, raw.data = "job_".data ++ suffix)
          ∧ raw.data.length ≤ 64 ∧ ∀ c ∈ raw.data, rustIsSlugChar c = true)
       ∧ (JobId.new raw ≠ Except.ok ⟨raw⟩ →
          JobId.new raw = Except.error (.invalidJobId raw)))
      ∧ ((TaskId.new raw = Except.ok ⟨raw⟩ ↔
          (∃ suffix : List Char, raw.data = "task_".data ++ suffix)
          ∧ raw.data.length ≤ 64 ∧ ∀ c ∈ raw.data, rustIsSlugChar c = true)
       ∧ (TaskId.new raw ≠ Except.ok ⟨raw⟩ →
          TaskId.new raw = Except.error (.invalidTaskId raw)))
      ∧ ((OrgId.new raw = Except.ok ⟨raw⟩ ↔
          (∃ suffix : List Char, raw.data = "org_".data ++ suffix)
          ∧ raw.data.length ≤ 64 ∧ ∀ c ∈ raw.data, rustIsSlugChar c = true)
       ∧ (OrgId.new raw ≠ Except.ok ⟨raw⟩ →
          OrgId.new raw = Except.error (.invalidOrgId raw))) := by
  intro raw _
  refine ⟨⟨?_, ?_⟩, ⟨?_, ?_⟩, ⟨?_, ?_⟩⟩
  · rw [← prefixed_id_valid_iff' raw "job_" (by decide)]
    unfold JobId.new
    split <;> simp_all
  · unfold JobId.new
    split
    · intro h; exact absurd rfl h
    · intro _; rfl
  · rw [← prefixed_id_valid_iff' raw "task_" (by decide)]
    unfold TaskId.new
    split <;> simp_all
  · unfold TaskId.new
    split
    · intro h; exact absurd rfl h
    · intro _; rfl
  · rw [← prefixed_id_valid_iff' raw "org_" (by decide)]
    unfold OrgId.new
    split <;> simp_all
  · unfold OrgId.new
    split
    · intro h; exact absurd rfl h
    · intro _; rfl

/-! ### Kahn loop: update and fold lemmas -/

/-- `updateDeg` does not change the key structure of the map. -/
theorem updateDeg_fst (m : List (String × Nat)) (k : String) :
    (updateDeg m k).1.map Prod.fst = m.map Prod.fst := by
  induction m with
  | nil => rfl
  | cons p rest ih =>
    obtain ⟨a, v⟩ := p
    by_cases h : a = k <;> simp [updateDeg, h, ih]

/-- On an absent key, `updateDeg` is the identity and reports `none`. -/
theorem updateDeg_lookup_none (m : List (String × Nat)) (k : String)
    (h : m.lookup k = none) : updateDeg m k = (m, none) := by
  induction m with
  | nil => rfl
  | cons p rest ih =>
    obtain ⟨a, v⟩ := p
    by_cases hak : a = k
    · subst hak
      simp [List.lookup] at h
    · have hk : (k == a) = false := by simp [Ne.symm hak]
      simp only [List.lookup, hk] at h
      simp [updateDeg, hak, ih h]

/-- On a present key, `updateDeg` decrements the first binding and reports
the new value. -/
theorem updateDeg_lookup_self (m : List (String × Nat)) (k : String) (v : Nat)
    (h : m.lookup k = some v) :
    (updateDeg m k).1.lookup k = some (v - 1) ∧ (updateDeg m k).2 = some (v - 1) := by
  induction m with
  | nil => simp [List.lookup] at h
  | cons p rest ih =>
    obtain ⟨a, w⟩ := p
    by_cases hak : a = k
    · subst hak
      simp [List.lookup] at h
      subst h
      simp [updateDeg, List.lookup]
    · have hk : (k == a) = false := by simp [Ne.symm hak]
      simp only [List.lookup, hk] at h
      have := ih h
      simp only [updateDeg, if_neg hak]
      constructor
      · simpa [List.lookup, hk] using this.1
      · exact this.2

/-- `updateDeg` leaves lookups of other keys unchanged. -/
theorem updateDeg_lookup_other (m : List (String × Nat)) (k k' : String)
    (h : k' ≠ k) : (updateDeg m k).1.lookup k' = m.lookup k' := by
  induction m with
  | nil => rfl
  | cons p rest ih =>
    obtain ⟨a, v⟩ := p
    by_cases hak : a = k
    · subst hak
      have hk : (k' == a) = false := by simp [h]
      simp [updateDeg, List.lookup, hk]
    · by_cases h2 : k' = a
      · subst h2
        simp [updateDeg, hak, List.lookup]
      · have hk : (k' == a) = false := by simp [h2]
        simp [updateDeg, hak, List.lookup, hk, ih]

/-- Effect of one `processNode` pass (a fold of `kahnStep` over a task
list with distinct names): keys preserved; unrelated lookups unchanged;
each listed task's degree decremented exactly when it depends on `node`;
and the names of exactly the `enqueues`-satisfying tasks appended to the
queue in task-list order. -/
theorem processFold_spec (node : String) :
    ∀ (ts : List TaskDefinition) (m : List (String × Nat)) (q : List String),
      (taskNames ts).Nodup →
      ((ts.foldl (kahnStep node) (m, q)).1.map Prod.fst = m.map Prod.fst
      ∧ (∀ s : String, s ∉ taskNames ts →
          (ts.foldl (kahnStep node) (m, q)).1.lookup s = m.lookup s)
      ∧ (∀ t ∈ ts, ∀ v, m.lookup t.name = some v →
          (ts.foldl (kahnStep node) (m, q)).1.lookup t.name
            = some (if node ∈ t.depends_on then v - 1 else v))
      ∧ (ts.foldl (kahnStep node) (m, q)).2
          = q ++ (ts.filter (enqueues node m)).map (fun t => t.name)) := by
  intro ts
  induction ts with
  | nil =>
    intro m q _
    simp [taskNames]
  | cons t ts ih =>
    intro m q hnd
    rw [taskNames, List.map_cons, List.nodup_cons] at hnd
    obtain ⟨hnotin, hnd2⟩ := hnd
    have hnd2' : (taskNames ts).Nodup := hnd2
    have hnotin' : t.name ∉ taskNames ts := hnotin
    rw [List.foldl_cons]
    by_cases hdep : node ∈ t.depends_on
    · cases hml : m.lookup t.name with
      | none =>
        have hup := updateDeg_lookup_none m t.name hml
        have hstep : kahnStep node (m, q) t = (m, q) := by
          simp [kahnStep, hdep, hup]
        rw [hstep]
        obtain ⟨ih1, ih2, ih3, ih4⟩ := ih m q hnd2'
        refine ⟨ih1, ?_, ?_, ?_⟩
        · intro s hs
          refine ih2 s ?_
          intro hc
          exact hs (by rw [taskNames, List.map_cons]; exact List.mem_cons_of_mem _ hc)
        · intro t' ht' v hv
          rcases List.mem_cons.mp ht' with h | h
          · subst h
            rw [hml] at hv
            exact absurd hv (by simp)
          · exact ih3 t' h v hv
        · rw [ih4]
          have hq : enqueues node m t = false := by
            simp [enqueues, hml]
          rw [List.filter_cons, hq]
          simp
      | some v =>
        have hup := updateDeg_lookup_self m t.name v hml
        have hstep : kahnStep node (m, q) t
            = ((updateDeg m t.name).1, if v - 1 = 0 then q ++ [t.name] else q) := by
          simp only [kahnStep, if_pos hdep, hup.2, Option.some.injEq]
        rw [hstep]
        obtain ⟨ih1, ih2, ih3, ih4⟩ :=
          ih (updateDeg m t.name).1 (if v - 1 = 0 then q ++ [t.name] else q) hnd2'
        have hother : ∀ s : String, s ≠ t.name →
            (updateDeg m t.name).1.lookup s = m.lookup s := fun s hs =>
          updateDeg_lookup_other m t.name s hs
        refine ⟨by rw [ih1, updateDeg_fst], ?_, ?_, ?_⟩
        · intro s hs
          have hs1 : s ≠ t.name := by
            intro hc
            exact hs (by rw [taskNames, List.map_cons, hc]; exact List.mem_cons_self _ _)
          have hs2 : s ∉ taskNames ts := by
            intro hc
            exact hs (by rw [taskNames, List.map_cons]; exact List.mem_cons_of_mem _ hc)
          rw [ih2 s hs2, hother s hs1]
        · intro t' ht' w hw
          rcases List.mem_cons.mp ht' with h | h
          · subst h
            rw [hml] at hw
            have hvw : v = w := by injection hw
            subst hvw
            rw [ih2 t'.name hnotin', hup.1, if_pos hdep]
          · have hne : t'.name ≠ t.name := by
              intro hc
              exact hnotin' (hc ▸ List.mem_map_of_mem (fun x => x.name) h)
            have := ih3 t' h w (by rw [hother t'.name hne]; exact hw)
            exact this
        · rw [ih4]
          have hcongr : ts.filter (enqueues node (updateDeg m t.name).1)
              = ts.filter (enqueues node m) := by
            refine List.filter_congr ?_
            intro t' ht'
            have hne : t'.name ≠ t.name := by
              intro hc
              exact hnotin' (hc ▸ List.mem_map_of_mem (fun x => x.name) ht')
            simp [enqueues, hother t'.name hne]
          rw [hcongr]
          have hq : enqueues node m t = decide (v ≤ 1) := by
            simp [enqueues, hml, hdep]
          rw [List.filter_cons, hq]
          by_cases hv1 : v - 1 = 0
          · have : v ≤ 1 := by omega
            simp [if_pos hv1, this]
          · have : ¬ (v ≤ 1) := by omega
            simp [if_neg hv1, this]
    · have hstep : kahnStep node (m, q) t = (m, q) := by
        simp [kahnStep, hdep]
      rw [hstep]
      obtain ⟨ih1, ih2, ih3, ih4⟩ := ih m q hnd2'
      refine ⟨ih1, ?_, ?_, ?_⟩
      · intro s hs
        refine ih2 s ?_
        intro hc
        exact hs (by rw [taskNames, List.map_cons]; exact List.mem_cons_of_mem _ hc)
      · intro t' ht' v hv
        rcases List.mem_cons.mp ht' with h | h
        · subst h
          rw [ih2 t'.name hnotin', hv, if_neg hdep]
        · exact ih3 t' h v hv
      · rw [ih4]
        have hq : enqueues node m t = false := by
          simp [enqueues, hdep]
        rw [List.filter_cons, hq]
        simp

/-- Appending one popped node to the emitted prefix bumps `cnt` for
exactly the tasks that depend on it. -/
theorem cnt_append_node (order : List String) (node : String) (t : TaskDefinition) :
    cnt (order ++ [node]) t = cnt order t + (if node ∈ t.depends_on then 1 else 0) := by
  unfold cnt
  rw [List.filter_append]
  by_cases h : node ∈ t.depends_on <;> simp [h]

/-- Membership in `taskNames` names a task. -/
theorem mem_taskNames {tasks : List TaskDefinition} {x : String}
    (h : x ∈ taskNames tasks) : ∃ t ∈ tasks, t.name = x := by
  rw [taskNames] at h
  exact List.mem_map.mp h

/-- With distinct names, a map built task-by-task looks up each task's own
value. -/
theorem lookup_map_task {β : Type} (f : TaskDefinition → β) :
    ∀ (tasks : List TaskDefinition), (taskNames tasks).Nodup →
      ∀ t ∈ tasks, (tasks.map (fun t => (t.name, f t))).lookup t.name = some (f t) := by
  intro tasks
  induction tasks with
  | nil => intro _ t ht; exact absurd ht (List.not_mem_nil t)
  | cons t0 ts ih =>
    intro hnd t ht
    rw [taskNames, List.map_cons, List.nodup_cons] at hnd
    rcases List.mem_cons.mp ht with h | h
    · subst h
      simp [List.lookup]
    · have hne : t.name ≠ t0.name := by
        intro hc
        exact hnd.1 (hc ▸ List.mem_map_of_mem (fun x => x.name) h)
      have hk : (t.name == t0.name) = false := by simp [hne]
      simp only [List.map_cons, List.lookup, hk]
      exact ih hnd.2 t h

/-- With distinct names, tasks are determined by their name. -/
theorem taskName_inj {tasks : List TaskDefinition} (hN : (taskNames tasks).Nodup)
    {t t' : TaskDefinition} (ht : t ∈ tasks) (ht' : t' ∈ tasks)
    (h : t.name = t'.name) : t = t' := by
  induction tasks with
  | nil => exact absurd ht (List.not_mem_nil t)
  | cons t0 ts ih =>
    rw [taskNames, List.map_cons, List.nodup_cons] at hN
    rcases List.mem_cons.mp ht with h1 | h1 <;> rcases List.mem_cons.mp ht' with h2 | h2
    · rw [h1, h2]
    · subst h1
      exact absurd (h ▸ List.mem_map_of_mem (fun x => x.name) h2) hN.1
    · subst h2
      exact absurd (h ▸ List.mem_map_of_mem (fun x => x.name) h1) hN.1
    · exact ih hN.2 h1 h2

/-- A task whose tracked in-degree has reached zero has all its
dependencies among the emitted names. -/
theorem deg_zero_deps_subset {order : List String} (hordNodup : order.Nodup)
    {t : TaskDefinition}
    (hcntLe : cnt order t ≤ t.depends_on.length)
    (h0 : t.depends_on.length - cnt order t = 0) :
    ∀ d ∈ t.depends_on, d ∈ order := by
  intro d hd
  have hcnt : cnt order t = t.depends_on.length := by omega
  have hFnodup : (order.filter (fun d => decide (d ∈ t.depends_on))).Nodup :=
    hordNodup.filter _
  have hFsub : (order.filter (fun d => decide (d ∈ t.depends_on))).toFinset
      ⊆ t.depends_on.toFinset := by
    intro x hx
    rw [List.mem_toFinset] at hx ⊢
    exact of_decide_eq_true (List.mem_filter.mp hx).2
  have hcard1 : (order.filter (fun d => decide (d ∈ t.depends_on))).toFinset.card
      = t.depends_on.length := by
    rw [List.toFinset_card_of_nodup hFnodup]
    exact hcnt
  have hcard2 : t.depends_on.toFinset.card ≤ t.depends_on.length :=
    List.toFinset_card_le _
  have heq : (order.filter (fun d => decide (d ∈ t.depends_on))).toFinset
      = t.depends_on.toFinset :=
    Finset.eq_of_subset_of_card_le hFsub (by omega)
  have hdF : d ∈ (order.filter (fun d => decide (d ∈ t.depends_on))).toFinset := by
    rw [heq, List.mem_toFinset]
    exact hd
  rw [List.mem_toFinset] at hdF
  exact (List.mem_filter.mp hdF).1

/-- While `node` sits in the queue, every task depending on it still has a
positive tracked in-degree. -/
theorem dep_node_deg_pos {tasks : List TaskDefinition}
    {inDeg : List (String × Nat)} {node : String} {rest order : List String}
    (inv : KahnInv tasks inDeg (node :: rest) order)
    {t : TaskDefinition} (ht : t ∈ tasks) (hdep : node ∈ t.depends_on) :
    cnt order t < t.depends_on.length := by
  rcases Nat.lt_or_ge (cnt order t) t.depends_on.length with h | h
  · exact h
  · exfalso
    have hle := inv.cntLe t ht
    have h0 : t.depends_on.length - cnt order t = 0 := by omega
    have hnodupOrd : order.Nodup := inv.nodup.of_append_left
    have hnode : node ∈ order :=
      deg_zero_deps_subset hnodupOrd hle h0 node hdep
    have hdisj := (List.nodup_append.mp inv.nodup).2.2
    exact hdisj hnode (List.mem_cons_self node rest)

/-- One loop iteration preserves the Kahn invariant: popping `node` from
the queue head, processing it, and appending it to the emitted prefix. -/
theorem processNode_inv {tasks : List TaskDefinition}
    (hN : (taskNames tasks).Nodup)
    {inDeg : List (String × Nat)} {node : String} {rest order : List String}
    (inv : KahnInv tasks inDeg (node :: rest) order) :
    KahnInv tasks (processNode tasks node (inDeg, rest)).1
      (processNode tasks node (inDeg, rest)).2 (order ++ [node]) := by
  obtain ⟨spec1, spec2, spec3, spec4⟩ := processFold_spec node tasks inDeg rest hN
  have spec1' : (processNode tasks node (inDeg, rest)).1.map Prod.fst
      = inDeg.map Prod.fst := spec1
  have spec4' : (processNode tasks node (inDeg, rest)).2
      = rest ++ (tasks.filter (enqueues node inDeg)).map (fun t => t.name) := spec4
  have hnodeNames : node ∈ taskNames tasks :=
    inv.subset node (List.mem_append_right order (List.mem_cons_self node rest))
  have hlookup : ∀ t ∈ tasks, (processNode tasks node (inDeg, rest)).1.lookup t.name
      = some (if node ∈ t.depends_on
              then (t.depends_on.length - cnt order t) - 1
              else t.depends_on.length - cnt order t) := by
    intro t ht
    have hsp := spec3 t ht _ (inv.deg t ht)
    by_cases hd : node ∈ t.depends_on
    · rw [if_pos hd] at hsp
      rw [if_pos hd]
      exact hsp
    · rw [if_neg hd] at hsp
      rw [if_neg hd]
      exact hsp
  have henq : ∀ x ∈ (tasks.filter (enqueues node inDeg)).map (fun t => t.name),
      ∃ t ∈ tasks, t.name = x ∧ node ∈ t.depends_on
        ∧ t.depends_on.length - cnt order t = 1 := by
    intro x hx
    rcases List.mem_map.mp hx with ⟨t, htf, hname⟩
    obtain ⟨ht, he⟩ := List.mem_filter.mp htf
    rw [enqueues, inv.deg t ht, Bool.and_eq_true, decide_eq_true_eq, decide_eq_true_eq] at he
    obtain ⟨hdep, hle1⟩ := he
    have hpos := dep_node_deg_pos inv ht hdep
    have hcLe := inv.cntLe t ht
    exact ⟨t, ht, hname, hdep, by omega⟩
  have hE : ((tasks.filter (enqueues node inDeg)).map (fun t => t.name)).Nodup := by
    have hsl : List.Sublist ((tasks.filter (enqueues node inDeg)).map (fun t => t.name))
        (tasks.map (fun t => t.name)) :=
      (List.filter_sublist tasks).map (fun t => t.name)
    exact (hN : (tasks.map (fun t => t.name)).Nodup).sublist hsl
  have hEdisj : ∀ x ∈ order ++ node :: rest,
      x ∉ (tasks.filter (enqueues node inDeg)).map (fun t => t.name) := by
    intro x hx hxE
    rcases henq x hxE with ⟨t, ht, hname, hdep, h1⟩
    have hz := inv.zero x hx
    rw [← hname] at hz
    rw [inv.deg t ht] at hz
    have : t.depends_on.length - cnt order t = 0 := by injection hz
    omega
  constructor
  case keys => rw [spec1']; exact inv.keys
  case nodup =>
    have hshape : (order ++ [node]) ++ (processNode tasks node (inDeg, rest)).2
        = (order ++ node :: rest)
            ++ (tasks.filter (enqueues node inDeg)).map (fun t => t.name) := by
      rw [spec4']
      simp
    rw [hshape]
    exact List.nodup_append.mpr ⟨inv.nodup, hE, fun x hx => hEdisj x hx⟩
  case subset =>
    intro x hx
    rw [spec4'] at hx
    simp only [List.mem_append, List.mem_cons, List.not_mem_nil, or_false] at hx
    rcases hx with (hx | hx) | (hx | hx)
    · exact inv.subset x (List.mem_append_left _ hx)
    · subst hx; exact hnodeNames
    · exact inv.subset x (List.mem_append_right _ (List.mem_cons_of_mem _ hx))
    · rcases henq x hx with ⟨t, ht, hname, _, _⟩
      rw [← hname]
      exact List.mem_map_of_mem (fun t => t.name) ht
  case deg =>
    intro t ht
    rw [hlookup t ht, cnt_append_node]
    by_cases hd : node ∈ t.depends_on
    · rw [if_pos hd, if_pos hd]
      exact congrArg some (by omega)
    · rw [if_neg hd, if_neg hd]
      exact congrArg some (by omega)
  case cntLe =>
    intro t ht
    rw [cnt_append_node]
    by_cases hd : node ∈ t.depends_on
    · have := dep_node_deg_pos inv ht hd
      rw [if_pos hd]
      omega
    · rw [if_neg hd]
      have := inv.cntLe t ht
      omega
  case zero =>
    intro x hx
    rw [spec4'] at hx
    simp only [List.mem_append, List.mem_cons, List.not_mem_nil, or_false] at hx
    have hold : x ∈ order ++ node :: rest → (processNode tasks node (inDeg, rest)).1.lookup x = some 0 := by
      intro hmem
      rcases mem_taskNames (inv.subset x hmem) with ⟨t, ht, hname⟩
      have hz := inv.zero x hmem
      rw [← hname] at hz ⊢
      rw [inv.deg t ht] at hz
      have h0 : t.depends_on.length - cnt order t = 0 := by injection hz
      have hnd : node ∉ t.depends_on := by
        intro hd
        have := dep_node_deg_pos inv ht hd
        have := inv.cntLe t ht
        omega
      rw [hlookup t ht, if_neg hnd, h0]
    rcases hx with (hx | hx) | (hx | hx)
    · exact hold (List.mem_append_left _ hx)
    · subst hx; exact hold (List.mem_append_right _ (List.mem_cons_self _ _))
    · exact hold (List.mem_append_right _ (List.mem_cons_of_mem _ hx))
    · rcases henq x hx with ⟨t, ht, hname, hdep, h1⟩
      rw [← hname, hlookup t ht, if_pos hdep, h1]
  case depsFirst =>
    intro i h t ht hname d hd
    have hlen : i < order.length + 1 := by simpa using h
    by_cases hi : i < order.length
    · have hget : (order ++ [node]).get ⟨i, h⟩ = order.get ⟨i, hi⟩ :=
        List.get_append i hi
      rw [List.take_append_of_le_length (Nat.le_of_lt hi)]
      exact inv.depsFirst i hi t ht (hname.trans hget) d hd
    · have hieq : i = order.length := by omega
      subst hieq
      have hget : (order ++ [node]).get ⟨order.length, h⟩ = node := by
        simp [List.get_eq_getElem, List.getElem_append_right]
      rw [List.take_left]
      have hnm : t.name = node := hname.trans hget
      have hz := inv.zero node (List.mem_append_right _ (List.mem_cons_self _ _))
      rw [← hnm, inv.deg t ht] at hz
      have h0 : t.depends_on.length - cnt order t = 0 := by injection hz
      exact deg_zero_deps_subset inv.nodup.of_append_left (inv.cntLe t ht) h0 d hd

/-- Any run of the Kahn loop from an invariant state emits distinct task
names in dependency-respecting order. -/
theorem kahnLoop_inv {tasks : List TaskDefinition} (hN : (taskNames tasks).Nodup) :
    ∀ (fuel : Nat) (inDeg : List (String × Nat)) (queue order : List String),
      KahnInv tasks inDeg queue order →
      ((kahnLoop tasks fuel inDeg queue order).Nodup
       ∧ (∀ x ∈ kahnLoop tasks fuel inDeg queue order, x ∈ taskNames tasks)
       ∧ DepsFirst tasks (kahnLoop tasks fuel inDeg queue order)) := by
  intro fuel
  induction fuel with
  | zero =>
    intro inDeg queue order inv
    exact ⟨inv.nodup.of_append_left,
      fun x hx => inv.subset x (List.mem_append_left _ hx), inv.depsFirst⟩
  | succ n ih =>
    intro inDeg queue order inv
    cases queue with
    | nil =>
      simp only [kahnLoop]
      exact ⟨inv.nodup.of_append_left,
        fun x hx => inv.subset x (List.mem_append_left _ hx), inv.depsFirst⟩
    | cons node rest =>
      simp only [kahnLoop]
      exact ih _ _ _ (processNode_inv hN inv)

/-- The invariant holds at the start of every traversal from the canonical
initial queue. -/
theorem kahnInv_init (tasks : List TaskDefinition) (hN : (taskNames tasks).Nodup) :
    KahnInv tasks (inDeg0 tasks) (canonicalQueue tasks) [] := by
  have hcanon : List.Sublist (canonicalQueue tasks) (taskNames tasks) := by
    unfold canonicalQueue taskNames
    exact (List.filter_sublist tasks).map (fun t => t.name)
  have hlook : ∀ t ∈ tasks, (inDeg0 tasks).lookup t.name = some t.depends_on.length :=
    lookup_map_task (fun t => t.depends_on.length) tasks hN
  constructor
  case keys => simp [inDeg0, taskNames]
  case nodup => simpa using hN.sublist hcanon
  case subset =>
    intro x hx
    simp only [List.nil_append] at hx
    exact hcanon.subset hx
  case deg =>
    intro t ht
    rw [hlook t ht]
    simp [cnt]
  case cntLe => intro t ht; simp [cnt]
  case zero =>
    intro x hx
    simp only [List.nil_append, canonicalQueue] at hx
    rcases List.mem_map.mp hx with ⟨t, htf, hname⟩
    obtain ⟨ht, hz⟩ := List.mem_filter.mp htf
    rw [← hname, hlook t ht]
    simp only [decide_eq_true_eq] at hz
    rw [hz]
  case depsFirst =>
    intro i h
    exact absurd h (by simp)

/-- A successful duplicate scan means the names are distinct and avoid the
seen set. -/
theorem firstDupAux_none :
    ∀ (l seen : List String), firstDupAux seen l = none →
      l.Nodup ∧ ∀ x ∈ l, x ∉ seen := by
  intro l
  induction l with
  | nil => intro seen _; exact ⟨List.nodup_nil, by simp⟩
  | cons x xs ih =>
    intro seen h
    rw [firstDupAux] at h
    by_cases hx : x ∈ seen
    · rw [if_pos hx] at h
      exact absurd h (by simp)
    · rw [if_neg hx] at h
      obtain ⟨hnd, hmem⟩ := ih (x :: seen) h
      refine ⟨List.nodup_cons.mpr ⟨?_, hnd⟩, ?_⟩
      · intro hc
        exact hmem x hc (List.mem_cons_self x seen)
      · intro y hy
        rcases List.mem_cons.mp hy with h1 | h1
        · subst h1; exact hx
        · intro hc
          exact hmem y h1 (List.mem_cons_of_mem x hc)

/-- What a successful `validate` guarantees: distinct task names, and a
canonical traversal that visits every task. -/
theorem validate_ok_facts (J : JobDefinition) (h : J.validate = .ok ()) :
    (taskNames J.tasks).Nodup
    ∧ (kahnRunWith J.tasks (canonicalQueue J.tasks)).length = J.tasks.length := by
  unfold JobDefinition.validate at h
  by_cases h1 : J.tasks.isEmpty
  · rw [if_pos h1] at h
    exact absurd h (by simp)
  · rw [if_neg h1] at h
    cases h2 : firstDupAux [] (taskNames J.tasks) with
    | some n =>
      rw [h2] at h
      exact absurd h (by simp)
    | none =>
      rw [h2] at h
      cases h3 : depCheckAux (taskNames J.tasks) J.tasks with
      | some e =>
        rw [h3] at h
        exact absurd h (by simp)
      | none =>
        rw [h3] at h
        by_cases h4 : (kahnRunWith J.tasks (canonicalQueue J.tasks)).length ≠ J.tasks.length
        · rw [if_pos h4] at h
          exact absurd h (by simp)
        · exact ⟨(firstDupAux_none _ _ h2).1, by omega⟩

/-- C5: for every definition accepted by `validate`, `topological_order`
returns a permutation of the task names in which every task appears after
all of its dependencies; `roots` contains exactly the tasks whose
`depends_on` is empty; and on the fetch→transform→send chain the order is
`["fetch", "transform", "send"]` with roots `["fetch"]`. -/
theorem c5_topological_order_spec :
    (∀ (J : JobDefinition) (order : List String),
        J.topological_order = .ok order →
          order.Perm (taskNames J.tasks)
          ∧ DepsFirst J.tasks order
          ∧ (∀ t ∈ J.tasks, (t.name ∈ J.roots ↔ t.depends_on = [])))
    ∧ chainJob.topological_order = .ok ["fetch", "transform", "send"]
    ∧ chainJob.roots = ["fetch"] := by
  refine ⟨?_, by decide, by decide⟩
  intro J order h
  unfold JobDefinition.topological_order at h
  cases hv : J.validate with
  | error e =>
    rw [hv] at h
    exact absurd h (by simp)
  | ok u =>
    cases u
    rw [hv] at h
    have horder : order = kahnRunWith J.tasks (canonicalQueue J.tasks) := by
      injection h with h2
      exact h2.symm
    obtain ⟨hN, hlen⟩ := validate_ok_facts J hv
    have hrun : kahnRunWith J.tasks (canonicalQueue J.tasks)
        = kahnLoop J.tasks J.tasks.length (inDeg0 J.tasks) (canonicalQueue J.tasks) [] :=
      rfl
    obtain ⟨hnd, hsub, hdf⟩ :=
      kahnLoop_inv hN J.tasks.length (inDeg0 J.tasks) (canonicalQueue J.tasks) []
        (kahnInv_init J.tasks hN)
    rw [← hrun] at hnd hsub hdf
    subst horder
    refine ⟨?_, hdf, ?_⟩
    · have hsubperm := List.subperm_of_subset hnd (fun x hx => hsub x hx)
      refine hsubperm.perm_of_length_le ?_
      rw [hlen, taskNames, List.length_map]
    · intro t ht
      constructor
      · intro hr
        rcases List.mem_map.mp hr with ⟨t2, ht2f, hname⟩
        obtain ⟨ht2, hz⟩ := List.mem_filter.mp ht2f
        have heq := taskName_inj hN ht ht2 hname.symm
        rw [heq]
        exact List.isEmpty_iff.mp hz
      · intro hd
        refine List.mem_map_of_mem (fun t => t.name) (List.mem_filter.mpr ⟨ht, ?_⟩)
        rw [hd]
        rfl

/-- Witness for C5: the universal part of the theorem applied to the
concrete chain job, using the theorem's own concrete conjunct to discharge
the hypothesis. -/
theorem c5_topological_order_spec_witness :
    (["fetch", "transform", "send"] : List String).Perm (taskNames chainJob.tasks)
    ∧ DepsFirst chainJob.tasks ["fetch", "transform", "send"] := by
  have h := c5_topological_order_spec
  have h2 := h.1 chainJob ["fetch", "transform", "send"] h.2.1
  exact ⟨h2.1, h2.2.1⟩

/-- C6 evidence (the claim is a code bug): the source builds the initial
zero-in-degree queue by iterating a `HashMap`, whose order is unspecified
and varies between hasher instances, so the emitted order of a multi-root
job depends on it.  Both `["a", "b"]` and `["b", "a"]` are admissible
initial queues for the two-root job (each is a permutation of the
zero-in-degree set), and they produce different outputs — so the output is
neither deterministic across evaluations nor guaranteed to list tied roots
in task-list order.  Ties that arise during the traversal do follow
task-list order (the `for task in &self.tasks` fold), which is why the
third task is last in both runs. -/
theorem c6_initial_queue_order_dependence :
    (["a", "b"] : List String).Perm (canonicalQueue parallelTasks)
    ∧ (["b", "a"] : List String).Perm (canonicalQueue parallelTasks)
    ∧ kahnRunWith parallelTasks ["a", "b"] = ["a", "b", "c"]
    ∧ kahnRunWith parallelTasks ["b", "a"] = ["b", "a", "c"]
    ∧ kahnRunWith parallelTasks ["a", "b"] ≠ kahnRunWith parallelTasks ["b", "a"] := by
  refine ⟨by decide, by decide, by decide, by decide, by decide⟩

/-! ### Base64 and wire round-trips -/

/-- Decoding inverts the alphabet table below 64. -/
theorem charSextet_sextetChar : ∀ n : Nat, n < 64 → charSextet (sextetChar n) = some n := by
  decide

/-- No alphabet character is the padding character. -/
theorem sextetChar_ne_pad : ∀ n : Nat, n < 64 → sextetChar n ≠ '=' := by
  decide

/-- Base64 round-trip on byte lists. -/
theorem b64_roundtrip : ∀ (bs : List Nat), (∀ x ∈ bs, x < 256) →
    b64decode (b64encode bs) = some bs
  | [], _ => by simp [b64encode, b64decode]
  | [a], h => by
    have ha : a < 256 := h a (by simp)
    have h1 : a / 4 < 64 := by omega
    have h2 : a % 4 * 16 < 64 := by omega
    simp [b64encode, b64decode, charSextet_sextetChar _ h1, charSextet_sextetChar _ h2]
    omega
  | [a, b], h => by
    have ha : a < 256 := h a (by simp)
    have hb : b < 256 := h b (by simp)
    have h1 : a / 4 < 64 := by omega
    have h2 : a % 4 * 16 + b / 16 < 64 := by omega
    have h3 : b % 16 * 4 < 64 := by omega
    simp [b64encode, b64decode, charSextet_sextetChar _ h1, charSextet_sextetChar _ h2,
      charSextet_sextetChar _ h3, sextetChar_ne_pad _ h3]
    omega
  | [a, b, c], h => by
    have ha : a < 256 := h a (by simp)
    have hb : b < 256 := h b (by simp)
    have hc : c < 256 := h c (by simp)
    have h1 : a / 4 < 64 := by omega
    have h2 : a % 4 * 16 + b / 16 < 64 := by omega
    have h3 : b % 16 * 4 + c / 64 < 64 := by omega
    have h4 : c % 64 < 64 := by omega
    simp [b64encode, b64decode, charSextet_sextetChar _ h1, charSextet_sextetChar _ h2,
      charSextet_sextetChar _ h3, charSextet_sextetChar _ h4,
      sextetChar_ne_pad _ h3, sextetChar_ne_pad _ h4]
    omega
  | a :: b :: c :: d :: rest, h => by
    have ha : a < 256 := h a (by simp)
    have hb : b < 256 := h b (by simp)
    have hc : c < 256 := h c (by simp)
    have h1 : a / 4 < 64 := by omega
    have h2 : a % 4 * 16 + b / 16 < 64 := by omega
    have h3 : b % 16 * 4 + c / 64 < 64 := by omega
    have h4 : c % 64 < 64 := by omega
    have ih := b64_roundtrip (d :: rest) (fun x hx => h x (by simp at hx ⊢; tauto))
    simp [b64encode, b64decode, charSextet_sextetChar _ h1, charSextet_sextetChar _ h2,
      charSextet_sextetChar _ h3, charSextet_sextetChar _ h4,
      sextetChar_ne_pad _ h3, sextetChar_ne_pad _ h4, ih]
    omega

/-- Envelope wire round-trip: serialize then deserialize restores every
field (ids, subject, timestamp, optional trace id, payload bytes). -/
theorem envelope_roundtrip (e : Envelope) (h : ∀ x ∈ e.payload, x < 256) :
    Envelope.fromJson (Envelope.toJson e) = some e := by
  obtain ⟨mid, subj, ts, tid, pay⟩ := e
  have hb : b64decode (b64encode pay) = some pay := b64_roundtrip pay (by simpa using h)
  cases tid with
  | none => simp [Envelope.toJson, Envelope.fromJson, Json.getField, List.lookup, hb]
  | some t => simp [Envelope.toJson, Envelope.fromJson, Json.getField, List.lookup, hb]

/-- C9: both wire forms round-trip losslessly.  For every envelope (with
byte-valued payload entries), JSON serialize→deserialize restores
`message_id`, `subject`, `timestamp`, `trace_id` and the payload bytes;
and for every round-trippable body type, `DomainPayload::new(v, id, data)`
followed by `to_bytes`/`from_bytes` restores `v`, `ts`, `id` and `data`,
with `ts` the (positive) construction-time clock value. -/
theorem c9_wire_roundtrip :
    (∀ e : Envelope, (∀ x ∈ e.payload, x < 256) →
        Envelope.fromJson (Envelope.toJson e) = some e)
    ∧ (∀ (T : Type) (enc : T → Json) (dec : Json → Option T),
        (∀ d, dec (enc d) = some d) →
        ∀ (now v : Nat) (id : String) (d : T), 0 < now →
          DomainPayload.fromJson dec (DomainPayload.toJson enc (DomainPayload.new now v id d))
              = some (DomainPayload.new now v id d)
            ∧ (DomainPayload.new now v id d).ts = now
            ∧ 0 < (DomainPayload.new now v id d).ts) := by
  refine ⟨envelope_roundtrip, ?_⟩
  intro T enc dec hdec now v id d hnow
  refine ⟨?_, rfl, hnow⟩
  simp [DomainPayload.new, DomainPayload.toJson, DomainPayload.fromJson, Json.getField,
    List.lookup, hdec d]

/-- Witness for C9: the theorem applied to a concrete envelope and a
concrete `Nat`-bodied payload. -/
theorem c9_wire_roundtrip_witness :
    Envelope.fromJson (Envelope.toJson ⟨"01ARZ3NDEKTSV4RRFFQ69G5FAV", "gbe.test.a", 5,
        some "trace-1", [0, 255, 7]⟩)
      = some ⟨"01ARZ3NDEKTSV4RRFFQ69G5FAV", "gbe.test.a", 5, some "trace-1", [0, 255, 7]⟩
    ∧ DomainPayload.fromJson (fun j => match j with | Json.jnum n => some n | _ => none)
        (DomainPayload.toJson Json.jnum (DomainPayload.new 42 1 "comp-1-evt-42" (7 : Nat)))
      = some (DomainPayload.new 42 1 "comp-1-evt-42" 7) :=
  ⟨c9_wire_roundtrip.1 _ (by decide),
   (c9_wire_roundtrip.2 Nat Json.jnum (fun j => match j with | Json.jnum n => some n | _ => none)
     (fun d => rfl) 42 1 "comp-1-evt-42" 7 (by decide)).1⟩

/-! ### Association map lemmas -/

/-- `assocUpsert` rewrites exactly the requested key. -/
theorem assocUpsert_lookup_self {α : Type} (m : List (String × α)) (k : String)
    (f : Option α → α) : (assocUpsert m k f).lookup k = some (f (m.lookup k)) := by
  induction m with
  | nil => simp [assocUpsert, List.lookup]
  | cons p rest ih =>
    obtain ⟨a, v⟩ := p
    by_cases h : a = k
    · subst h
      simp [assocUpsert, List.lookup]
    · have hk : (k == a) = false := by simp [Ne.symm h]
      simp only [assocUpsert, if_neg h, List.lookup, hk]
      exact ih

/-- `assocUpsert` leaves other keys alone. -/
theorem assocUpsert_lookup_other {α : Type} (m : List (String × α)) (k k' : String)
    (f : Option α → α) (h : k' ≠ k) :
    (assocUpsert m k f).lookup k' = m.lookup k' := by
  induction m with
  | nil =>
    have hk : (k' == k) = false := by simp [h]
    simp [assocUpsert, List.lookup, hk]
  | cons p rest ih =>
    obtain ⟨a, v⟩ := p
    by_cases hak : a = k
    · subst hak
      have hk : (k' == a) = false := by simp [h]
      simp [assocUpsert, List.lookup, hk]
    · by_cases h2 : k' = a
      · subst h2
        simp [assocUpsert, hak, List.lookup]
      · have hk : (k' == a) = false := by simp [h2]
        simp [assocUpsert, hak, List.lookup, hk, ih]

/-- `assocAdjust` maps the value at the requested key. -/
theorem assocAdjust_lookup_self {α : Type} (m : List (String × α)) (k : String)
    (f : α → α) : (assocAdjust m k f).lookup k = (m.lookup k).map f := by
  induction m with
  | nil => simp [assocAdjust, List.lookup]
  | cons p rest ih =>
    obtain ⟨a, v⟩ := p
    by_cases h : a = k
    · subst h
      simp [assocAdjust, List.lookup]
    · have hk : (k == a) = false := by simp [Ne.symm h]
      simp only [assocAdjust, if_neg h, List.lookup, hk]
      exact ih

/-- `assocAdjust` leaves other keys alone. -/
theorem assocAdjust_lookup_other {α : Type} (m : List (String × α)) (k k' : String)
    (f : α → α) (h : k' ≠ k) :
    (assocAdjust m k f).lookup k' = m.lookup k' := by
  induction m with
  | nil => simp [assocAdjust]
  | cons p rest ih =>
    obtain ⟨a, v⟩ := p
    by_cases hak : a = k
    · subst hak
      have hk : (k' == a) = false := by simp [h]
      simp [assocAdjust, List.lookup, hk]
    · by_cases h2 : k' = a
      · subst h2
        simp [assocAdjust, hak, List.lookup]
      · have hk : (k' == a) = false := by simp [h2]
        simp [assocAdjust, hak, List.lookup, hk, ih]

/-! ### Redis CAS (C8) -/

/-- `HGET` after `HSET` on the same key and field yields the new value. -/
theorem redisHget_hset_self (db : RedisDb) (k f : String) (v : List Nat) :
    redisHget (redisHset db k f v) k f = some v := by
  unfold redisHget redisHset
  rw [assocUpsert_lookup_self]
  exact assocUpsert_lookup_self ((List.lookup k db).getD []) f (fun _ => v)

/-- C8: `compare_and_swap` sets the field and returns true exactly when
the field currently holds the expected bytes, and otherwise returns false
leaving the database unchanged (field absent, key absent or value
mismatch included); and in the claimed scenario, after
`set_field(k, "state", "pending")` a CAS from `"pending"` to `"claimed"`
succeeds and `get_field` yields `"claimed"`, while a second CAS with
expected `"pending"` fails and the value stays `"claimed"`. -/
theorem c8_compare_and_swap_spec :
    (∀ (db : RedisDb) (k f : String) (e n : List Nat),
        ((compare_and_swap db k f e n).1 = true ↔ get_field db k f = some e)
        ∧ ((compare_and_swap db k f e n).1 = true →
            (compare_and_swap db k f e n).2 = redisHset db k f n
            ∧ get_field (compare_and_swap db k f e n).2 k f = some n)
        ∧ ((compare_and_swap db k f e n).1 = false →
            (compare_and_swap db k f e n).2 = db))
    ∧ (∀ (db : RedisDb) (k : String),
        (compare_and_swap (set_field db k "state" (strUtf8 "pending"))
            k "state" (strUtf8 "pending") (strUtf8 "claimed")).1 = true
        ∧ get_field (compare_and_swap (set_field db k "state" (strUtf8 "pending"))
            k "state" (strUtf8 "pending") (strUtf8 "claimed")).2 k "state"
            = some (strUtf8 "claimed")
        ∧ (compare_and_swap (compare_and_swap (set_field db k "state" (strUtf8 "pending"))
            k "state" (strUtf8 "pending") (strUtf8 "claimed")).2
            k "state" (strUtf8 "pending") (strUtf8 "claimed")).1 = false
        ∧ (compare_and_swap (compare_and_swap (set_field db k "state" (strUtf8 "pending"))
            k "state" (strUtf8 "pending") (strUtf8 "claimed")).2
            k "state" (strUtf8 "pending") (strUtf8 "claimed")).2
          = (compare_and_swap (set_field db k "state" (strUtf8 "pending"))
            k "state" (strUtf8 "pending") (strUtf8 "claimed")).2
        ∧ get_field (compare_and_swap (compare_and_swap (set_field db k "state" (strUtf8 "pending"))
            k "state" (strUtf8 "pending") (strUtf8 "claimed")).2
            k "state" (strUtf8 "pending") (strUtf8 "claimed")).2 k "state"
            = some (strUtf8 "claimed")) := by
  have hgen : ∀ (db : RedisDb) (k f : String) (e n : List Nat),
      ((compare_and_swap db k f e n).1 = true ↔ get_field db k f = some e)
      ∧ ((compare_and_swap db k f e n).1 = true →
          (compare_and_swap db k f e n).2 = redisHset db k f n
          ∧ get_field (compare_and_swap db k f e n).2 k f = some n)
      ∧ ((compare_and_swap db k f e n).1 = false →
          (compare_and_swap db k f e n).2 = db) := by
    intro db k f e n
    unfold compare_and_swap casScript get_field
    cases hg : redisHget db k f with
    | none =>
      refine ⟨by simp, by simp, by simp⟩
    | some cur =>
      by_cases hc : cur = e
      · subst hc
        simp [redisHget_hset_self]
      · simp [hc]
  refine ⟨hgen, ?_⟩
  intro db k
  have hget1 : get_field (set_field db k "state" (strUtf8 "pending")) k "state"
      = some (strUtf8 "pending") := redisHget_hset_self db k "state" _
  have h1 := (hgen (set_field db k "state" (strUtf8 "pending")) k "state"
      (strUtf8 "pending") (strUtf8 "claimed")).1.mpr hget1
  have h2 := (hgen (set_field db k "state" (strUtf8 "pending")) k "state"
      (strUtf8 "pending") (strUtf8 "claimed")).2.1 h1
  have hget2 := h2.2
  have hneq : ¬ (get_field (compare_and_swap (set_field db k "state" (strUtf8 "pending"))
      k "state" (strUtf8 "pending") (strUtf8 "claimed")).2 k "state"
      = some (strUtf8 "pending")) := by
    rw [hget2]
    intro hcontra
    have : strUtf8 "claimed" = strUtf8 "pending" := by injection hcontra
    exact absurd this (by decide)
  have h3 : (compare_and_swap (compare_and_swap (set_field db k "state" (strUtf8 "pending"))
      k "state" (strUtf8 "pending") (strUtf8 "claimed")).2
      k "state" (strUtf8 "pending") (strUtf8 "claimed")).1 = false := by
    cases hb : (compare_and_swap (compare_and_swap (set_field db k "state" (strUtf8 "pending"))
        k "state" (strUtf8 "pending") (strUtf8 "claimed")).2
        k "state" (strUtf8 "pending") (strUtf8 "claimed")).1 with
    | false => rfl
    | true =>
      exact absurd ((hgen _ k "state" (strUtf8 "pending") (strUtf8 "claimed")).1.mp hb) hneq
  have h4 := (hgen (compare_and_swap (set_field db k "state" (strUtf8 "pending"))
      k "state" (strUtf8 "pending") (strUtf8 "claimed")).2
      k "state" (strUtf8 "pending") (strUtf8 "claimed")).2.2 h3
  refine ⟨h1, hget2, h3, h4, by rw [h4]; exact hget2⟩

/-- Witness for C8 at a concrete database and key. -/
theorem c8_compare_and_swap_spec_witness :
    (compare_and_swap (set_field [] "gbe.state.tasks.t.task_1" "state" (strUtf8 "pending"))
        "gbe.state.tasks.t.task_1" "state" (strUtf8 "pending") (strUtf8 "claimed")).1 = true
    ∧ get_field (compare_and_swap (set_field [] "gbe.state.tasks.t.task_1" "state"
        (strUtf8 "pending")) "gbe.state.tasks.t.task_1" "state" (strUtf8 "pending")
        (strUtf8 "claimed")).2 "gbe.state.tasks.t.task_1" "state"
        = some (strUtf8 "claimed") := by
  have h := c8_compare_and_swap_spec.2 [] "gbe.state.tasks.t.task_1"
  exact ⟨h.1, h.2.1⟩

/-! ### Batch collection (C1, C10) -/

/-- The redelivery phase never grows the batch beyond `takeN`. -/
theorem redeliverPhase_length :
    ∀ (red : List String) (idx : List (String × Nat)) (msgs : List Envelope)
      (takeN : Nat) (batch : List Envelope), batch.length ≤ takeN →
      (redeliverPhase idx msgs takeN red batch).1.length ≤ takeN := by
  intro red
  induction red with
  | nil =>
    intro idx msgs takeN batch h
    simpa [redeliverPhase] using h
  | cons id rest ih =>
    intro idx msgs takeN batch h
    rw [redeliverPhase]
    by_cases hlt : batch.length < takeN
    · rw [if_pos hlt]
      split
      · split
        · exact ih idx msgs takeN (batch ++ [_]) (by simp; omega)
        · exact ih idx msgs takeN batch h
      · exact ih idx msgs takeN batch h
    · rw [if_neg hlt]
      exact h

/-- Under the id-index invariant, every envelope the redelivery phase adds
to the batch carries an id that was on the redelivery queue. -/
theorem redeliverPhase_mem :
    ∀ (red : List String) (idx : List (String × Nat)) (msgs : List Envelope)
      (takeN : Nat) (batch : List Envelope),
      (∀ id i, idx.lookup id = some i →
        ∃ env, msgs.get? i = some env ∧ env.message_id = id) →
      ∀ e ∈ (redeliverPhase idx msgs takeN red batch).1, e ∈ batch ∨ e.message_id ∈ red := by
  intro red
  induction red with
  | nil =>
    intro idx msgs takeN batch _ e he
    exact Or.inl (by simpa [redeliverPhase] using he)
  | cons id rest ih =>
    intro idx msgs takeN batch hidx e he
    rw [redeliverPhase] at he
    by_cases hlt : batch.length < takeN
    · rw [if_pos hlt] at he
      split at he
      next i hl =>
        split at he
        next env hm =>
          rcases ih idx msgs takeN (batch ++ [env]) hidx e he with hb | hr
          · rcases List.mem_append.mp hb with hb | hb
            · exact Or.inl hb
            · rcases hidx id i hl with ⟨env2, hm2, hid2⟩
              rw [hm] at hm2
              have henv : env = env2 := Option.some.inj hm2
              have he2 : e = env := by simpa using hb
              subst he2
              refine Or.inr ?_
              rw [henv, hid2]
              exact List.mem_cons_self _ _
          · exact Or.inr (List.mem_cons_of_mem _ hr)
        next hm =>
          rcases ih idx msgs takeN batch hidx e he with hb | hr
          · exact Or.inl hb
          · exact Or.inr (List.mem_cons_of_mem _ hr)
      next hl =>
        rcases ih idx msgs takeN batch hidx e he with hb | hr
        · exact Or.inl hb
        · exact Or.inr (List.mem_cons_of_mem _ hr)
    · rw [if_neg hlt] at he
      exact Or.inl he

/-- Invariants of the cursor-phase fold: pending only grows and only by
the ids of envelopes the fold itself appends; the batch grows by at most
one envelope per range position; the redelivery queue is untouched. -/
theorem cursorFold_spec (msgs : List Envelope) :
    ∀ (l : List Nat) (batch0 : List Envelope) (g0 : ConsumerGroup),
      (g0.pending ⊆ (l.foldl (cursorStep msgs) (batch0, g0)).2.pending)
      ∧ ((l.foldl (cursorStep msgs) (batch0, g0)).2.pending.card
          ≤ g0.pending.card + l.length)
      ∧ ((l.foldl (cursorStep msgs) (batch0, g0)).1.length ≤ batch0.length + l.length)
      ∧ ((l.foldl (cursorStep msgs) (batch0, g0)).2.redeliver = g0.redeliver)
      ∧ (∀ e ∈ batch0, e ∈ (l.foldl (cursorStep msgs) (batch0, g0)).1)
      ∧ (∀ e ∈ (l.foldl (cursorStep msgs) (batch0, g0)).1,
          e ∈ batch0 ∨ e.message_id ∈ (l.foldl (cursorStep msgs) (batch0, g0)).2.pending)
      ∧ ((l.foldl (cursorStep msgs) (batch0, g0)).2.pending
          ⊆ g0.pending
            ∪ ((l.foldl (cursorStep msgs) (batch0, g0)).1.map
                (fun e => e.message_id)).toFinset) := by
  intro l
  induction l with
  | nil =>
    intro batch0 g0
    refine ⟨fun x hx => hx, by simp, by simp, rfl, fun e he => he,
      fun e he => Or.inl he, fun x hx => Finset.mem_union_left _ hx⟩
  | cons i rest ih =>
    intro batch0 g0
    rw [List.foldl_cons]
    have key : (g0.pending ⊆ (cursorStep msgs (batch0, g0) i).2.pending)
        ∧ ((cursorStep msgs (batch0, g0) i).2.pending.card ≤ g0.pending.card + 1)
        ∧ ((cursorStep msgs (batch0, g0) i).1.length ≤ batch0.length + 1)
        ∧ ((cursorStep msgs (batch0, g0) i).2.redeliver = g0.redeliver)
        ∧ (∀ e ∈ batch0, e ∈ (cursorStep msgs (batch0, g0) i).1)
        ∧ (∀ e ∈ (cursorStep msgs (batch0, g0) i).1,
            e ∈ batch0 ∨ e.message_id ∈ (cursorStep msgs (batch0, g0) i).2.pending)
        ∧ ((cursorStep msgs (batch0, g0) i).2.pending
            ⊆ g0.pending
              ∪ ((cursorStep msgs (batch0, g0) i).1.map
                  (fun e => e.message_id)).toFinset) := by
      unfold cursorStep
      split
      next env hm =>
        by_cases hp : env.message_id ∈ (batch0, g0).2.pending
        · rw [if_pos hp]
          refine ⟨fun x hx => hx, by simp, by simp, rfl, fun e he => he,
            fun e he => Or.inl he, fun x hx => Finset.mem_union_left _ hx⟩
        · rw [if_neg hp]
          refine ⟨Finset.subset_insert _ _, ?_, by simp, rfl, ?_, ?_, ?_⟩
          · exact Finset.card_insert_le _ _
          · intro e he
            exact List.mem_append_left _ he
          · intro e he
            rcases List.mem_append.mp he with h1 | h1
            · exact Or.inl h1
            · have : e = env := by simpa using h1
              subst this
              exact Or.inr (Finset.mem_insert_self _ _)
          · intro x hx
            rcases Finset.mem_insert.mp hx with h1 | h1
            · subst h1
              refine Finset.mem_union_right _ ?_
              rw [List.mem_toFinset]
              exact List.mem_map_of_mem _ (List.mem_append_right _ (List.mem_cons_self _ _))
            · exact Finset.mem_union_left _ h1
      next hm =>
        refine ⟨fun x hx => hx, by simp, by simp, rfl, fun e he => he,
          fun e he => Or.inl he, fun x hx => Finset.mem_union_left _ hx⟩
    obtain ⟨k1, k2, k3, k4, k5, k6, k7⟩ := key
    obtain ⟨i1, i2, i3, i4, i5, i6, i7⟩ :=
      ih (cursorStep msgs (batch0, g0) i).1 (cursorStep msgs (batch0, g0) i).2
    have hpair : ((cursorStep msgs (batch0, g0) i).1, (cursorStep msgs (batch0, g0) i).2)
        = cursorStep msgs (batch0, g0) i := rfl
    rw [hpair] at i1 i2 i3 i4 i5 i6 i7
    refine ⟨k1.trans i1, ?_, ?_, i4.trans k4, ?_, ?_, ?_⟩
    · simp only [List.length_cons]
      omega
    · simp only [List.length_cons]
      omega
    · intro e he
      exact i5 e (k5 e he)
    · intro e he
      rcases i6 e he with h1 | h1
      · rcases k6 e h1 with h2 | h2
        · exact Or.inl h2
        · exact Or.inr (i1 h2)
      · exact Or.inr h1
    · intro x hx
      rcases Finset.mem_union.mp (i7 hx) with h1 | h1
      · rcases Finset.mem_union.mp (k7 h1) with h2 | h2
        · exact Finset.mem_union_left _ h2
        · refine Finset.mem_union_right _ ?_
          rw [List.mem_toFinset] at h2 ⊢
          rcases List.mem_map.mp h2 with ⟨e, he, hid⟩
          exact hid ▸ List.mem_map_of_mem _ (i5 e he)
      · exact Finset.mem_union_right _ h1

/-- The cursor phase with the range spelled out. -/
theorem cursorPhase_eq (msgs : List Envelope) (takeN : Nat) (g : ConsumerGroup)
    (batch : List Envelope) :
    cursorPhase msgs takeN g batch
      = (List.range' (match g.cursor with | some c => c + 1 | none => 0)
          (min ((match g.cursor with | some c => c + 1 | none => 0) + takeN - batch.length)
              msgs.length
            - (match g.cursor with | some c => c + 1 | none => 0))).foldl
          (cursorStep msgs) (batch, g) := rfl

/-- When the cursor already sits at or past the end of the log, the cursor
phase delivers nothing and leaves the group unchanged. -/
theorem cursorPhase_at_end (msgs : List Envelope) (takeN : Nat) (g : ConsumerGroup)
    (batch : List Envelope) (c : Nat) (hc : g.cursor = some c)
    (hlen : msgs.length ≤ c + 1) :
    cursorPhase msgs takeN g batch = (batch, g) := by
  rw [cursorPhase_eq, hc]
  have h0 : min (c + 1 + takeN - batch.length) msgs.length - (c + 1) = 0 := by
    have := Nat.min_le_right (c + 1 + takeN - batch.length) msgs.length
    omega
  rw [h0]
  rfl

/-- The cursor phase never removes anything from pending. -/
theorem cursorPhase_pending_mono (msgs : List Envelope) (takeN : Nat) (g : ConsumerGroup)
    (batch : List Envelope) : g.pending ⊆ (cursorPhase msgs takeN g batch).2.pending := by
  rw [cursorPhase_eq]
  exact (cursorFold_spec msgs _ batch g).1

/-- The cursor phase grows pending by at most its delivery budget. -/
theorem cursorPhase_card (msgs : List Envelope) (takeN : Nat) (g : ConsumerGroup)
    (batch : List Envelope) :
    (cursorPhase msgs takeN g batch).2.pending.card
      ≤ g.pending.card + (takeN - batch.length) := by
  have hfold := (cursorFold_spec msgs
    (List.range' (match g.cursor with | some c => c + 1 | none => 0)
      (min ((match g.cursor with | some c => c + 1 | none => 0) + takeN - batch.length)
          msgs.length
        - (match g.cursor with | some c => c + 1 | none => 0))) batch g).2.1
  rw [← cursorPhase_eq, List.length_range'] at hfold
  have hmin := Nat.min_le_left
    ((match g.cursor with | some c => c + 1 | none => 0) + takeN - batch.length) msgs.length
  omega

/-- The cursor phase never grows the batch beyond `takeN`. -/
theorem cursorPhase_length (msgs : List Envelope) (takeN : Nat) (g : ConsumerGroup)
    (batch : List Envelope) (h : batch.length ≤ takeN) :
    (cursorPhase msgs takeN g batch).1.length ≤ takeN := by
  have hfold := (cursorFold_spec msgs
    (List.range' (match g.cursor with | some c => c + 1 | none => 0)
      (min ((match g.cursor with | some c => c + 1 | none => 0) + takeN - batch.length)
          msgs.length
        - (match g.cursor with | some c => c + 1 | none => 0))) batch g).2.2.1
  rw [← cursorPhase_eq, List.length_range'] at hfold
  have hmin := Nat.min_le_left
    ((match g.cursor with | some c => c + 1 | none => 0) + takeN - batch.length) msgs.length
  omega

/-- The cursor phase does not touch the redelivery queue. -/
theorem cursorPhase_redeliver (msgs : List Envelope) (takeN : Nat) (g : ConsumerGroup)
    (batch : List Envelope) : (cursorPhase msgs takeN g batch).2.redeliver = g.redeliver := by
  rw [cursorPhase_eq]
  exact (cursorFold_spec msgs _ batch g).2.2.2.1

/-- Every cursor-phase batch entry beyond the initial batch has its id in
the resulting pending set. -/
theorem cursorPhase_mem (msgs : List Envelope) (takeN : Nat) (g : ConsumerGroup)
    (batch : List Envelope) :
    ∀ e ∈ (cursorPhase msgs takeN g batch).1,
      e ∈ batch ∨ e.message_id ∈ (cursorPhase msgs takeN g batch).2.pending := by
  rw [cursorPhase_eq]
  exact (cursorFold_spec msgs _ batch g).2.2.2.2.2.1

/-- The cursor phase adds to pending only ids of batch entries. -/
theorem cursorPhase_superset (msgs : List Envelope) (takeN : Nat) (g : ConsumerGroup)
    (batch : List Envelope) :
    (cursorPhase msgs takeN g batch).2.pending
      ⊆ g.pending
        ∪ ((cursorPhase msgs takeN g batch).1.map (fun e => e.message_id)).toFinset := by
  rw [cursorPhase_eq]
  exact (cursorFold_spec msgs _ batch g).2.2.2.2.2.2

/-- `collect_batch` below the backpressure threshold, with the lets
expanded. -/
theorem collect_batch_eq (stream : StreamData) (g : ConsumerGroup) (opts : SubscribeOpts)
    (h : g.pending.card < opts.max_inflight) :
    collect_batch stream g opts
      = (if (redeliverPhase stream.id_index stream.messages
              (min opts.batch_size (opts.max_inflight - g.pending.card)) g.redeliver []).1.length
            < min opts.batch_size (opts.max_inflight - g.pending.card)
         then cursorPhase stream.messages
                (min opts.batch_size (opts.max_inflight - g.pending.card))
                ⟨g.cursor, g.pending,
                 (redeliverPhase stream.id_index stream.messages
                   (min opts.batch_size (opts.max_inflight - g.pending.card)) g.redeliver []).2⟩
                (redeliverPhase stream.id_index stream.messages
                  (min opts.batch_size (opts.max_inflight - g.pending.card)) g.redeliver []).1
         else ((redeliverPhase stream.id_index stream.messages
                 (min opts.batch_size (opts.max_inflight - g.pending.card)) g.redeliver []).1,
               ⟨g.cursor, g.pending,
                (redeliverPhase stream.id_index stream.messages
                  (min opts.batch_size (opts.max_inflight - g.pending.card)) g.redeliver []).2⟩)) := by
  unfold collect_batch
  rw [if_neg (by omega)]

/-- C1 part: backpressure returns an empty batch and an unchanged group. -/
theorem collect_batch_backpressure (stream : StreamData) (g : ConsumerGroup)
    (opts : SubscribeOpts) (h : opts.max_inflight ≤ g.pending.card) :
    collect_batch stream g opts = ([], g) := by
  simp [collect_batch, h]

/-- C1 part: below the threshold the batch holds at most
`min(batch_size, max_inflight − pending.len())` envelopes. -/
theorem collect_batch_le (stream : StreamData) (g : ConsumerGroup) (opts : SubscribeOpts)
    (h : g.pending.card < opts.max_inflight) :
    (collect_batch stream g opts).1.length
      ≤ min opts.batch_size (opts.max_inflight - g.pending.card) := by
  rw [collect_batch_eq stream g opts h]
  have hph := redeliverPhase_length g.redeliver stream.id_index stream.messages
    (min opts.batch_size (opts.max_inflight - g.pending.card)) [] (by simp)
  split
  next hlt =>
    exact cursorPhase_length stream.messages _ _ _ (Nat.le_of_lt hlt)
  next hlt => exact hph

/-- C1/C10 part: `collect_batch` never removes anything from pending. -/
theorem collect_batch_pending_mono (stream : StreamData) (g : ConsumerGroup)
    (opts : SubscribeOpts) : g.pending ⊆ (collect_batch stream g opts).2.pending := by
  by_cases h : opts.max_inflight ≤ g.pending.card
  · rw [collect_batch_backpressure stream g opts h]
  · rw [collect_batch_eq stream g opts (by omega)]
    split
    · exact cursorPhase_pending_mono stream.messages
        (min opts.batch_size (opts.max_inflight - g.pending.card))
        ⟨g.cursor, g.pending,
         (redeliverPhase stream.id_index stream.messages
           (min opts.batch_size (opts.max_inflight - g.pending.card)) g.redeliver []).2⟩
        (redeliverPhase stream.id_index stream.messages
          (min opts.batch_size (opts.max_inflight - g.pending.card)) g.redeliver []).1
    · exact fun x hx => hx

/-- C10 part: everything `collect_batch` adds to pending is the id of some
envelope in the returned batch. -/
theorem collect_batch_pending_superset (stream : StreamData) (g : ConsumerGroup)
    (opts : SubscribeOpts) :
    (collect_batch stream g opts).2.pending
      ⊆ g.pending ∪ ((collect_batch stream g opts).1.map (fun e => e.message_id)).toFinset := by
  by_cases h : opts.max_inflight ≤ g.pending.card
  · rw [collect_batch_backpressure stream g opts h]
    exact fun x hx => Finset.mem_union_left _ hx
  · rw [collect_batch_eq stream g opts (by omega)]
    split
    · exact cursorPhase_superset stream.messages
        (min opts.batch_size (opts.max_inflight - g.pending.card))
        ⟨g.cursor, g.pending,
         (redeliverPhase stream.id_index stream.messages
           (min opts.batch_size (opts.max_inflight - g.pending.card)) g.redeliver []).2⟩
        (redeliverPhase stream.id_index stream.messages
          (min opts.batch_size (opts.max_inflight - g.pending.card)) g.redeliver []).1
    · exact fun x hx => Finset.mem_union_left _ hx

/-- C1 part: `collect_batch` keeps the pending cardinality within
`max_inflight`. -/
theorem collect_batch_card_le (stream : StreamData) (g : ConsumerGroup)
    (opts : SubscribeOpts) (h : g.pending.card ≤ opts.max_inflight) :
    (collect_batch stream g opts).2.pending.card ≤ opts.max_inflight := by
  by_cases hb : opts.max_inflight ≤ g.pending.card
  · rw [collect_batch_backpressure stream g opts hb]
    exact h
  · rw [collect_batch_eq stream g opts (by omega)]
    split
    · have hcard : (cursorPhase stream.messages
          (min opts.batch_size (opts.max_inflight - g.pending.card))
          ⟨g.cursor, g.pending,
           (redeliverPhase stream.id_index stream.messages
             (min opts.batch_size (opts.max_inflight - g.pending.card)) g.redeliver []).2⟩
          (redeliverPhase stream.id_index stream.messages
            (min opts.batch_size (opts.max_inflight - g.pending.card)) g.redeliver []).1).2.pending.card
          ≤ g.pending.card
            + (min opts.batch_size (opts.max_inflight - g.pending.card)
               - (redeliverPhase stream.id_index stream.messages
                   (min opts.batch_size (opts.max_inflight - g.pending.card))
                   g.redeliver []).1.length) :=
        cursorPhase_card stream.messages _ _ _
      have hmin := Nat.min_le_right opts.batch_size (opts.max_inflight - g.pending.card)
      omega
    · exact h

/-- C1 part: when the redelivery queue is empty, it stays empty and every
delivered id lands in pending. -/
theorem collect_batch_nil_redeliver (stream : StreamData) (g : ConsumerGroup)
    (opts : SubscribeOpts) (hred : g.redeliver = []) :
    (collect_batch stream g opts).2.redeliver = []
    ∧ ∀ e ∈ (collect_batch stream g opts).1,
        e.message_id ∈ (collect_batch stream g opts).2.pending := by
  by_cases h : opts.max_inflight ≤ g.pending.card
  · rw [collect_batch_backpressure stream g opts h]
    exact ⟨hred, by simp⟩
  · rw [collect_batch_eq stream g opts (by omega)]
    rw [hred]
    split
    · refine ⟨?_, ?_⟩
      · rw [cursorPhase_redeliver stream.messages _ _ _]
        rfl
      · intro e he
        rcases cursorPhase_mem stream.messages _ _ _ e he with h1 | h1
        · exact absurd h1 (List.not_mem_nil e)
        · exact h1
    · exact ⟨rfl, by simp [redeliverPhase]⟩

/-- C1 part: every batch element either had its id inserted into pending
(cursor phase) or came off the redelivery queue. -/
theorem collect_batch_mem (stream : StreamData) (g : ConsumerGroup) (opts : SubscribeOpts)
    (hidx : IndexConsistent stream) :
    ∀ e ∈ (collect_batch stream g opts).1,
      e.message_id ∈ (collect_batch stream g opts).2.pending
      ∨ e.message_id ∈ g.redeliver := by
  by_cases h : opts.max_inflight ≤ g.pending.card
  · rw [collect_batch_backpressure stream g opts h]
    simp
  · rw [collect_batch_eq stream g opts (by omega)]
    have hphase := redeliverPhase_mem g.redeliver stream.id_index stream.messages
      (min opts.batch_size (opts.max_inflight - g.pending.card)) [] hidx
    split
    · intro e he
      rcases cursorPhase_mem stream.messages _ _ _ e he with h1 | h1
      · rcases hphase e h1 with h2 | h2
        · exact absurd h2 (List.not_mem_nil e)
        · exact Or.inr h2
      · exact Or.inl h1
    · intro e he
      rcases hphase e he with h2 | h2
      · exact absurd h2 (List.not_mem_nil e)
      · exact Or.inr h2

/-- C1 part: the never-ack run keeps the delivered-id set inside pending
and pending within the cap. -/
theorem runSteps_spec (opts : SubscribeOpts) :
    ∀ (streams : List StreamData) (g : ConsumerGroup) (seen : Finset String),
      g.redeliver = [] → seen ⊆ g.pending → g.pending.card ≤ opts.max_inflight →
      (runSteps opts streams g seen).2 ⊆ (runSteps opts streams g seen).1.pending
      ∧ (runSteps opts streams g seen).1.pending.card ≤ opts.max_inflight := by
  intro streams
  induction streams with
  | nil =>
    intro g seen hred hseen hcard
    exact ⟨hseen, hcard⟩
  | cons s rest ih =>
    intro g seen hred hseen hcard
    rw [runSteps]
    obtain ⟨hred2, hids⟩ := collect_batch_nil_redeliver s g opts hred
    refine ih (collect_batch s g opts).2 _ hred2 ?_ (collect_batch_card_le s g opts hcard)
    intro x hx
    rcases Finset.mem_union.mp hx with h1 | h1
    · exact collect_batch_pending_mono s g opts (hseen h1)
    · rw [List.mem_toFinset] at h1
      rcases List.mem_map.mp h1 with ⟨e, he, hid⟩
      exact hid ▸ hids e he

/-- C1: per-(subject, group) backpressure.  `collect_batch` returns an
empty batch whenever `pending.len() ≥ max_inflight`; otherwise it returns
at most `min(batch_size, max_inflight − pending.len())` envelopes, each
either freshly inserted into pending or taken off the redelivery queue
(under the id-index invariant); and a subscription with
`max_inflight = N` whose handler never disposes sees at most `N` distinct
message ids over any run. -/
theorem c1_backpressure_cap :
    (∀ (stream : StreamData) (g : ConsumerGroup) (opts : SubscribeOpts),
        opts.max_inflight ≤ g.pending.card → collect_batch stream g opts = ([], g))
    ∧ (∀ (stream : StreamData) (g : ConsumerGroup) (opts : SubscribeOpts),
        g.pending.card < opts.max_inflight →
        (collect_batch stream g opts).1.length
          ≤ min opts.batch_size (opts.max_inflight - g.pending.card))
    ∧ (∀ (stream : StreamData) (g : ConsumerGroup) (opts : SubscribeOpts),
        IndexConsistent stream →
        ∀ e ∈ (collect_batch stream g opts).1,
          e.message_id ∈ (collect_batch stream g opts).2.pending
          ∨ e.message_id ∈ g.redeliver)
    ∧ (∀ (N : Nat) (opts : SubscribeOpts) (streams : List StreamData)
          (g0 : ConsumerGroup),
        opts.max_inflight = N → g0.pending = ∅ → g0.redeliver = [] →
        (runSteps opts streams g0 ∅).2.card ≤ N) := by
  refine ⟨collect_batch_backpressure, collect_batch_le, collect_batch_mem, ?_⟩
  intro N opts streams g0 hN hpend hred
  obtain ⟨hsub, hcard⟩ := runSteps_spec opts streams g0 ∅ hred (by simp) (by rw [hpend]; simp)
  calc (runSteps opts streams g0 ∅).2.card
      ≤ (runSteps opts streams g0 ∅).1.pending.card := Finset.card_le_card hsub
    _ ≤ opts.max_inflight := hcard
    _ = N := hN

/-- Witness for C1: the theorem applied to a one-message stream with
`max_inflight = 2` and to a `max_inflight = 0` group for the backpressure
conjunct. -/
theorem c1_backpressure_cap_witness :
    collect_batch ⟨[⟨"m1", "gbe.test.s", 1, none, [1]⟩], [("m1", 0)], []⟩
        ⟨none, ∅, []⟩ ⟨10, 0⟩ = ([], ⟨none, ∅, []⟩)
    ∧ (collect_batch ⟨[⟨"m1", "gbe.test.s", 1, none, [1]⟩], [], []⟩
        ⟨none, ∅, []⟩ ⟨10, 2⟩).1.length ≤ min 10 2
    ∧ (runSteps ⟨10, 2⟩ [⟨[⟨"m1", "gbe.test.s", 1, none, [1]⟩], [], []⟩]
        ⟨none, ∅, []⟩ ∅).2.card ≤ 2 := by
  refine ⟨c1_backpressure_cap.1 _ _ _ (by decide), ?_, ?_⟩
  · have h := c1_backpressure_cap.2.1 ⟨[⟨"m1", "gbe.test.s", 1, none, [1]⟩], [], []⟩
      ⟨none, ∅, []⟩ ⟨10, 2⟩ (by decide)
    simpa using h
  · exact c1_backpressure_cap.2.2.2 2 ⟨10, 2⟩ _ _ rfl rfl rfl

/-! ### Message dispositions (C2, C10) -/

/-- `nak` pushes the id onto the group's redelivery queue and leaves
pending untouched. -/
theorem nak_group_effect (m : MemoryMessage) (st : StreamStore) (s : StreamData)
    (g : ConsumerGroup) (hacked : m.acked = false)
    (hs : st.streams.lookup m.subject = some s)
    (hg : s.groups.lookup m.group = some g) :
    groupOf (m.nak st).2 m.subject m.group = some (nakGroup m.envelope.message_id g) := by
  unfold MemoryMessage.nak
  rw [if_neg (by simp [hacked])]
  unfold groupOf
  show ((assocAdjust st.streams m.subject _).lookup m.subject).bind _ = _
  rw [assocAdjust_lookup_self, hs]
  simp only [Option.map_some', Option.some_bind]
  show (assocAdjust s.groups m.group _).lookup m.group = _
  rw [assocAdjust_lookup_self, hg]
  simp only [Option.map_some']

/-- `ack` removes the id from the group's pending set and leaves the
redelivery queue untouched. -/
theorem ack_group_effect (m : MemoryMessage) (st : StreamStore) (s : StreamData)
    (g : ConsumerGroup) (hacked : m.acked = false)
    (hs : st.streams.lookup m.subject = some s)
    (hg : s.groups.lookup m.group = some g) :
    groupOf (m.ack st).2 m.subject m.group = some (ackGroup m.envelope.message_id g) := by
  unfold MemoryMessage.ack
  rw [if_neg (by simp [hacked])]
  unfold groupOf
  show ((assocAdjust st.streams m.subject _).lookup m.subject).bind _ = _
  rw [assocAdjust_lookup_self, hs]
  simp only [Option.map_some', Option.some_bind]
  show (assocAdjust s.groups m.group _).lookup m.group = _
  rw [assocAdjust_lookup_self, hg]
  simp only [Option.map_some']

/-- The messages of a defaulted optional stream. -/
theorem getD_empty_messages (o : Option StreamData) :
    (o.getD StreamData.empty).messages = (o.map (fun s => s.messages)).getD [] := by
  cases o <;> rfl

/-- `dead_letter` appends exactly one envelope — the fresh dead-letter
envelope — to the dead-letter subject's log (creating the stream when
needed). -/
theorem dl_messages_effect (m : MemoryMessage) (st : StreamStore) (reason newId : String)
    (now : Nat) (hacked : m.acked = false) :
    messagesOf (m.dead_letter reason newId now st).2
        ("gbe._deadletter." ++ extract_domain m.subject)
      = messagesOf st ("gbe._deadletter." ++ extract_domain m.subject)
        ++ [Envelope.new ("gbe._deadletter." ++ extract_domain m.subject)
              (deadLetterPayload m.envelope reason) m.envelope.trace_id newId now] := by
  unfold MemoryMessage.dead_letter
  rw [if_neg (by simp [hacked])]
  unfold messagesOf
  by_cases hdl : ("gbe._deadletter." ++ extract_domain m.subject) = m.subject
  · show (((assocAdjust (assocUpsert st.streams ("gbe._deadletter." ++ extract_domain m.subject) _)
        m.subject _).lookup ("gbe._deadletter." ++ extract_domain m.subject)).map _).getD _ = _
    rw [hdl, assocAdjust_lookup_self, assocUpsert_lookup_self]
    rw [← hdl]
    simp only [Option.map_some', Option.getD_some]
    rw [getD_empty_messages]
  · show (((assocAdjust (assocUpsert st.streams ("gbe._deadletter." ++ extract_domain m.subject) _)
        m.subject _).lookup ("gbe._deadletter." ++ extract_domain m.subject)).map _).getD _ = _
    rw [assocAdjust_lookup_other _ _ _ _ hdl, assocUpsert_lookup_self]
    simp only [Option.map_some', Option.getD_some]
    rw [getD_empty_messages]

/-- `dead_letter` removes the original message id from the source group's
pending set (whether or not the dead-letter subject coincides with the
source subject). -/
theorem dl_group_effect (m : MemoryMessage) (st : StreamStore) (s : StreamData)
    (g : ConsumerGroup) (reason newId : String) (now : Nat)
    (hacked : m.acked = false)
    (hs : st.streams.lookup m.subject = some s)
    (hg : s.groups.lookup m.group = some g) :
    groupOf (m.dead_letter reason newId now st).2 m.subject m.group
      = some (ackGroup m.envelope.message_id g) := by
  unfold MemoryMessage.dead_letter
  rw [if_neg (by simp [hacked])]
  unfold groupOf
  show ((assocAdjust (assocUpsert st.streams ("gbe._deadletter." ++ extract_domain m.subject) _)
      m.subject _).lookup m.subject).bind _ = _
  rw [assocAdjust_lookup_self]
  by_cases hdl : ("gbe._deadletter." ++ extract_domain m.subject) = m.subject
  · rw [hdl, assocUpsert_lookup_self, hs]
    simp only [Option.map_some', Option.some_bind]
    show (assocAdjust ((some s).getD StreamData.empty).groups m.group _).lookup m.group = _
    rw [show ((some s).getD StreamData.empty).groups = s.groups from rfl]
    rw [assocAdjust_lookup_self, hg]
    simp only [Option.map_some']
  · rw [assocUpsert_lookup_other _ _ _ _ (fun hc => hdl hc.symm), hs]
    simp only [Option.map_some', Option.some_bind]
    show (assocAdjust s.groups m.group _).lookup m.group = _
    rw [assocAdjust_lookup_self, hg]
    simp only [Option.map_some']

/-- `dead_letter` touches no stream other than the dead-letter subject and
the source subject. -/
theorem dl_other_subjects (m : MemoryMessage) (st : StreamStore) (reason newId : String)
    (now : Nat) (subj : String) (hacked : m.acked = false)
    (h1 : subj ≠ "gbe._deadletter." ++ extract_domain m.subject)
    (h2 : subj ≠ m.subject) :
    (m.dead_letter reason newId now st).2.streams.lookup subj
      = st.streams.lookup subj := by
  unfold MemoryMessage.dead_letter
  rw [if_neg (by simp [hacked])]
  show (assocAdjust (assocUpsert st.streams ("gbe._deadletter." ++ extract_domain m.subject) _)
      m.subject _).lookup subj = _
  rw [assocAdjust_lookup_other _ _ _ _ h2, assocUpsert_lookup_other _ _ _ _ h1]

/-- When the group's cursor already sits at the end of the log, the whole
batch comes off the redelivery queue and pending is left untouched. -/
theorem collect_batch_pending_at_end (stream : StreamData) (g : ConsumerGroup)
    (opts : SubscribeOpts) (c : Nat) (hc : g.cursor = some c)
    (hlen : stream.messages.length ≤ c + 1) :
    (collect_batch stream g opts).2.pending = g.pending := by
  by_cases h : opts.max_inflight ≤ g.pending.card
  · rw [collect_batch_backpressure stream g opts h]
  · rw [collect_batch_eq stream g opts (by omega)]
    split
    · have hc1 : (⟨g.cursor, g.pending,
          (redeliverPhase stream.id_index stream.messages
            (min opts.batch_size (opts.max_inflight - g.pending.card))
            g.redeliver []).2⟩ : ConsumerGroup).cursor = some c := hc
      rw [cursorPhase_at_end stream.messages _ _ _ c hc1 hlen]
    · rfl

/-- C2: as the first disposition, `dead_letter(reason)` appends exactly
one envelope to the `gbe._deadletter.<domain>` log — `<domain>` being the
second dot-separated token of the source subject, `"unknown"` when absent
— whose payload renders the JSON object
`\x7b"original_envelope": <envelope as JSON>, "reason": reason\x7d`,
removes the original message id from the (subject, group) pending set,
and leaves every other subject's stream untouched. -/
theorem c2_dead_letter_spec (m : MemoryMessage) (st : StreamStore) (s : StreamData)
    (g : ConsumerGroup) (reason newId : String) (now : Nat)
    (hacked : m.acked = false)
    (hs : st.streams.lookup m.subject = some s)
    (hg : s.groups.lookup m.group = some g) :
    (extract_domain "gbe.tasks.email-send.queue" = "tasks"
      ∧ extract_domain "single" = "unknown")
    ∧ messagesOf (m.dead_letter reason newId now st).2
          ("gbe._deadletter." ++ extract_domain m.subject)
        = messagesOf st ("gbe._deadletter." ++ extract_domain m.subject)
          ++ [Envelope.new ("gbe._deadletter." ++ extract_domain m.subject)
                (charsUtf8 (Json.render (.jobj
                  [("original_envelope", m.envelope.toJsonSorted),
                   ("reason", .jstr reason)])))
                m.envelope.trace_id newId now]
    ∧ groupOf (m.dead_letter reason newId now st).2 m.subject m.group
        = some ⟨g.cursor, g.pending.erase m.envelope.message_id, g.redeliver⟩
    ∧ ∀ subj, subj ≠ "gbe._deadletter." ++ extract_domain m.subject →
        subj ≠ m.subject →
        (m.dead_letter reason newId now st).2.streams.lookup subj
          = st.streams.lookup subj := by
  refine ⟨⟨by decide, by decide⟩, ?_, ?_, ?_⟩
  · exact dl_messages_effect m st reason newId now hacked
  · exact dl_group_effect m st s g reason newId now hacked hs hg
  · exact fun subj h1 h2 => dl_other_subjects m st reason newId now subj hacked h1 h2

/-- Witness for C2 on a concrete one-message store: the domain is
extracted, the dead-letter log receives the new envelope, and the id
leaves pending. -/
theorem c2_dead_letter_spec_witness :
    extract_domain "gbe.tasks.email-send.queue" = "tasks"
    ∧ messagesOf (MemoryMessage.dead_letter
          ⟨⟨"m1", "gbe.tasks.email-send.queue", 5, none, [1, 2]⟩,
           "gbe.tasks.email-send.queue", "workers", false⟩ "boom" "dl1" 9
          ⟨[("gbe.tasks.email-send.queue",
             ⟨[⟨"m1", "gbe.tasks.email-send.queue", 5, none, [1, 2]⟩], [("m1", 0)],
              [("workers", ⟨none, {"m1"}, []⟩)]⟩)]⟩).2
          ("gbe._deadletter." ++ extract_domain "gbe.tasks.email-send.queue")
        = messagesOf
            ⟨[("gbe.tasks.email-send.queue",
               ⟨[⟨"m1", "gbe.tasks.email-send.queue", 5, none, [1, 2]⟩], [("m1", 0)],
                [("workers", ⟨none, {"m1"}, []⟩)]⟩)]⟩
            ("gbe._deadletter." ++ extract_domain "gbe.tasks.email-send.queue")
          ++ [Envelope.new ("gbe._deadletter." ++ extract_domain "gbe.tasks.email-send.queue")
                (charsUtf8 (Json.render (.jobj
                  [("original_envelope",
                    Envelope.toJsonSorted ⟨"m1", "gbe.tasks.email-send.queue", 5, none, [1, 2]⟩),
                   ("reason", .jstr "boom")])))
                none "dl1" 9]
    ∧ groupOf (MemoryMessage.dead_letter
          ⟨⟨"m1", "gbe.tasks.email-send.queue", 5, none, [1, 2]⟩,
           "gbe.tasks.email-send.queue", "workers", false⟩ "boom" "dl1" 9
          ⟨[("gbe.tasks.email-send.queue",
             ⟨[⟨"m1", "gbe.tasks.email-send.queue", 5, none, [1, 2]⟩], [("m1", 0)],
              [("workers", ⟨none, {"m1"}, []⟩)]⟩)]⟩).2
          "gbe.tasks.email-send.queue" "workers"
        = some ⟨none, ({"m1"} : Finset String).erase "m1", []⟩ := by
  have h := c2_dead_letter_spec
    ⟨⟨"m1", "gbe.tasks.email-send.queue", 5, none, [1, 2]⟩,
     "gbe.tasks.email-send.queue", "workers", false⟩
    ⟨[("gbe.tasks.email-send.queue",
       ⟨[⟨"m1", "gbe.tasks.email-send.queue", 5, none, [1, 2]⟩], [("m1", 0)],
        [("workers", ⟨none, {"m1"}, []⟩)]⟩)]⟩
    ⟨[⟨"m1", "gbe.tasks.email-send.queue", 5, none, [1, 2]⟩], [("m1", 0)],
     [("workers", ⟨none, {"m1"}, []⟩)]⟩
    ⟨none, {"m1"}, []⟩ "boom" "dl1" 9 rfl rfl rfl
  exact ⟨h.1.1, h.2.1, h.2.2.1⟩

/-- C10: `nak` pushes the id onto the group's redelivery queue and leaves
pending unchanged; the id leaves pending through `ack` or `dead_letter`
(each erases it); `collect_batch` never removes from pending; a nak'd
group at the cap still gets an empty batch (backpressure); and a batch
served entirely from the redelivery queue (cursor at end of log) leaves
pending untouched — redelivered ids are not re-inserted. -/
theorem c10_nak_keeps_pending (m : MemoryMessage) (st : StreamStore) (s : StreamData)
    (g : ConsumerGroup) (reason newId : String) (now : Nat)
    (hacked : m.acked = false)
    (hs : st.streams.lookup m.subject = some s)
    (hg : s.groups.lookup m.group = some g) :
    groupOf (m.nak st).2 m.subject m.group
        = some ⟨g.cursor, g.pending, g.redeliver ++ [m.envelope.message_id]⟩
    ∧ groupOf (m.ack st).2 m.subject m.group
        = some ⟨g.cursor, g.pending.erase m.envelope.message_id, g.redeliver⟩
    ∧ groupOf (m.dead_letter reason newId now st).2 m.subject m.group
        = some ⟨g.cursor, g.pending.erase m.envelope.message_id, g.redeliver⟩
    ∧ (∀ (stream : StreamData) (opts : SubscribeOpts),
        g.pending ⊆ (collect_batch stream g opts).2.pending)
    ∧ (∀ (stream : StreamData) (opts : SubscribeOpts),
        opts.max_inflight ≤ g.pending.card →
        collect_batch stream (nakGroup m.envelope.message_id g) opts
          = ([], nakGroup m.envelope.message_id g))
    ∧ (∀ (stream : StreamData) (opts : SubscribeOpts) (c : Nat),
        g.cursor = some c → stream.messages.length ≤ c + 1 →
        (collect_batch stream g opts).2.pending = g.pending) := by
  refine ⟨nak_group_effect m st s g hacked hs hg,
    ack_group_effect m st s g hacked hs hg,
    dl_group_effect m st s g reason newId now hacked hs hg,
    fun stream opts => collect_batch_pending_mono stream g opts,
    fun stream opts h => collect_batch_backpressure stream _ opts h,
    fun stream opts c hc hlen => collect_batch_pending_at_end stream g opts c hc hlen⟩

/-- Witness for C10 on a concrete one-message store with `max_inflight`
already reached: `nak` keeps `"w1"` pending while queueing it for
redelivery, the nak'd group is backpressured, and a cursor-at-end batch
leaves pending unchanged. -/
theorem c10_nak_keeps_pending_witness :
    groupOf (MemoryMessage.nak
          ⟨⟨"w1", "gbe.jobs.run.queue", 3, none, [7]⟩,
           "gbe.jobs.run.queue", "grp", false⟩
          ⟨[("gbe.jobs.run.queue",
             ⟨[⟨"w1", "gbe.jobs.run.queue", 3, none, [7]⟩], [("w1", 0)],
              [("grp", ⟨some 0, {"w1"}, []⟩)]⟩)]⟩).2
        "gbe.jobs.run.queue" "grp"
      = some ⟨some 0, {"w1"}, ["w1"]⟩
    ∧ collect_batch ⟨[⟨"w1", "gbe.jobs.run.queue", 3, none, [7]⟩], [("w1", 0)], []⟩
        ⟨some 0, {"w1"}, ["w1"]⟩ ⟨10, 1⟩
      = ([], ⟨some 0, {"w1"}, ["w1"]⟩)
    ∧ (collect_batch ⟨[⟨"w1", "gbe.jobs.run.queue", 3, none, [7]⟩], [("w1", 0)], []⟩
        ⟨some 0, {"w1"}, []⟩ ⟨10, 5⟩).2.pending = {"w1"} := by
  have h := c10_nak_keeps_pending
    ⟨⟨"w1", "gbe.jobs.run.queue", 3, none, [7]⟩, "gbe.jobs.run.queue", "grp", false⟩
    ⟨[("gbe.jobs.run.queue",
       ⟨[⟨"w1", "gbe.jobs.run.queue", 3, none, [7]⟩], [("w1", 0)],
        [("grp", ⟨some 0, {"w1"}, []⟩)]⟩)]⟩
    ⟨[⟨"w1", "gbe.jobs.run.queue", 3, none, [7]⟩], [("w1", 0)],
     [("grp", ⟨some 0, {"w1"}, []⟩)]⟩
    ⟨some 0, {"w1"}, []⟩ "r" "d1" 9 rfl rfl rfl
  exact ⟨h.1,
    h.2.2.2.2.1 ⟨[⟨"w1", "gbe.jobs.run.queue", 3, none, [7]⟩], [("w1", 0)], []⟩
      ⟨10, 1⟩ (by decide),
    h.2.2.2.2.2 ⟨[⟨"w1", "gbe.jobs.run.queue", 3, none, [7]⟩], [("w1", 0)], []⟩
      ⟨10, 5⟩ 0 rfl (by decide)⟩

/-- Over a list sorted for the predicate (later holds imply earlier
hold), the `takeWhile` prefix is the whole `filter` and the `dropWhile`
suffix is the complement. -/
theorem sorted_takeWhile_filter {α : Type} (p : α → Bool) :
    ∀ (l : List α), l.Pairwise (fun a b => p b = true → p a = true) →
      l.takeWhile p = l.filter p ∧ l.dropWhile p = l.filter (fun a => !(p a)) := by
  intro l
  induction l with
  | nil => simp
  | cons a t ih =>
    intro hp
    rcases List.pairwise_cons.mp hp with ⟨ha, ht⟩
    obtain ⟨ih1, ih2⟩ := ih ht
    by_cases hpa : p a = true
    · simp [List.takeWhile_cons, List.dropWhile_cons, List.filter_cons, hpa, ih1, ih2]
    · have hpa' : p a = false := by
        cases hval : p a
        · rfl
        · exact absurd hval hpa
      have hall : ∀ b ∈ t, ¬ p b = true := fun b hb hpb => hpa (ha b hb hpb)
      have hfilter : t.filter p = [] := List.filter_eq_nil.mpr hall
      have hneg : t.filter (fun a => !(p a)) = t := by
        apply List.filter_eq_self.mpr
        intro b hb
        cases hval : p b
        · rfl
        · exact absurd hval (hall b hb)
      simp [List.takeWhile_cons, List.dropWhile_cons, List.filter_cons, hpa', hfilter, hneg]

/-- Folding `Finset.erase` over a list is set difference with its
elements. -/
theorem foldl_erase_eq_sdiff (l : List String) : ∀ (p : Finset String),
    l.foldl (fun pen id => pen.erase id) p = p \ l.toFinset := by
  induction l with
  | nil => intro p; simp
  | cons a t ih =>
    intro p
    rw [List.foldl_cons, ih (p.erase a), Finset.erase_eq, List.toFinset_cons,
      Finset.insert_eq, sdiff_sdiff, Finset.sup_eq_union]

/-- Lookup in an assoc list after mapping the values. -/
theorem lookup_map_assoc {α β : Type} (f : α → β) (k : String) :
    ∀ (l : List (String × α)),
      (l.map (fun p => (p.1, f p.2))).lookup k = (l.lookup k).map f := by
  intro l
  induction l with
  | nil => rfl
  | cons a t ih =>
    obtain ⟨k2, v⟩ := a
    cases hbeq : (k == k2)
    · simp only [List.map_cons, List.lookup, hbeq]
      exact ih
    · simp [List.lookup, hbeq]

/-- Lookup misses a key absent from the key column. -/
theorem lookup_none_of_not_mem_fst {α : Type} (k : String) :
    ∀ (l : List (String × α)), k ∉ l.map Prod.fst → l.lookup k = none := by
  intro l
  induction l with
  | nil => intro _; rfl
  | cons a t ih =>
    obtain ⟨k2, v⟩ := a
    intro h
    rw [List.map_cons, List.mem_cons] at h
    push_neg at h
    have hbeq : (k == k2) = false := by simp [h.1]
    simp only [List.lookup, hbeq]
    exact ih h.2

/-- The key column of the rebuilt id index is the message-id column. -/
theorem enum_map_fst_ids (l : List Envelope) :
    ((l.enum.map (fun p => (p.2.message_id, p.1))).map Prod.fst)
      = l.map (fun e => e.message_id) := by
  rw [List.map_map]
  have : (Prod.fst ∘ fun p : Nat × Envelope => (p.2.message_id, p.1))
      = (fun e => e.message_id) ∘ Prod.snd := rfl
  rw [this, ← List.map_map, List.enum_map_snd]

/-- Everything about `trimStreamData` under sortedness and id-nodup. -/
theorem trimStreamData_spec (cutoff : Nat) (s : StreamData)
    (hsort : s.messages.Pairwise (fun a b => a.timestamp ≤ b.timestamp))
    (hnodup : (s.messages.map (fun e => e.message_id)).Nodup) :
    (trimStreamData cutoff s).1
      = s.messages.countP (fun e => e.timestamp ≤ cutoff)
    ∧ (trimStreamData cutoff s).2.messages
      = s.messages.filter (fun e => !decide (e.timestamp ≤ cutoff))
    ∧ (∀ id, id ∈ (s.messages.filter (fun e => e.timestamp ≤ cutoff)).map
          (fun e => e.message_id) →
        (trimStreamData cutoff s).2.id_index.lookup id = none)
    ∧ (∀ grp g2, s.groups.lookup grp = some g2 →
        (trimStreamData cutoff s).2.groups.lookup grp
          = some ⟨(match g2.cursor with
              | some c =>
                if c < s.messages.countP (fun e => e.timestamp ≤ cutoff) then none
                else some (c - s.messages.countP (fun e => e.timestamp ≤ cutoff))
              | none => none),
            g2.pending \ ((s.messages.filter (fun e => e.timestamp ≤ cutoff)).map
              (fun e => e.message_id)).toFinset,
            g2.redeliver⟩) := by
  have himp : s.messages.Pairwise
      (fun a b => (fun e : Envelope => decide (e.timestamp ≤ cutoff)) b = true →
        (fun e : Envelope => decide (e.timestamp ≤ cutoff)) a = true) := by
    refine hsort.imp ?_
    intro a b hab hb
    simp only [decide_eq_true_eq] at hb ⊢
    omega
  obtain ⟨htake, hdrop⟩ := sorted_takeWhile_filter _ s.messages himp
  have hsplit : s.messages.takeWhile (fun e => decide (e.timestamp ≤ cutoff))
      ++ s.messages.dropWhile (fun e => decide (e.timestamp ≤ cutoff)) = s.messages :=
    List.takeWhile_append_dropWhile _ _
  have hcount : (s.messages.takeWhile (fun e => e.timestamp ≤ cutoff)).length
      = s.messages.countP (fun e => e.timestamp ≤ cutoff) := by
    rw [htake, List.countP_eq_length_filter]
  have htakeN : s.messages.take
      (s.messages.takeWhile (fun e => decide (e.timestamp ≤ cutoff))).length
      = s.messages.takeWhile (fun e => decide (e.timestamp ≤ cutoff)) := by
    nth_rewrite 2 [← hsplit]
    exact List.take_left _ _
  have hdropN : s.messages.drop
      (s.messages.takeWhile (fun e => decide (e.timestamp ≤ cutoff))).length
      = s.messages.dropWhile (fun e => decide (e.timestamp ≤ cutoff)) := by
    nth_rewrite 2 [← hsplit]
    exact List.drop_left _ _
  by_cases hzero : (s.messages.takeWhile (fun e => decide (e.timestamp ≤ cutoff))).length = 0
  · have hres : trimStreamData cutoff s = (0, s) := by
      unfold trimStreamData
      rw [if_pos hzero]
    have hcount0 : s.messages.countP (fun e => e.timestamp ≤ cutoff) = 0 := by
      rw [← hcount]; exact hzero
    have hfilter_nil : s.messages.filter (fun e => decide (e.timestamp ≤ cutoff)) = [] := by
      rw [← htake]
      exact List.eq_nil_of_length_eq_zero hzero
    refine ⟨by rw [hres, hcount0], ?_, ?_, ?_⟩
    · rw [hres]
      have hall : ∀ x ∈ s.messages, ¬ (decide (x.timestamp ≤ cutoff) = true) :=
        List.filter_eq_nil.mp hfilter_nil
      have hself : s.messages.filter (fun e => !decide (e.timestamp ≤ cutoff)) = s.messages := by
        apply List.filter_eq_self.mpr
        intro b hb
        cases hval : decide (b.timestamp ≤ cutoff)
        · rfl
        · exact absurd hval (hall b hb)
      rw [hself]
    · intro id hid
      rw [hfilter_nil] at hid
      exact absurd hid (List.not_mem_nil id)
    · intro grp g2 hg2
      rw [hres]
      have hpend : g2.pending \ ((s.messages.filter
          (fun e => decide (e.timestamp ≤ cutoff))).map (fun e => e.message_id)).toFinset
          = g2.pending := by
        rw [hfilter_nil]
        simp
      rw [hg2, hpend, hcount0]
      cases g2 with
      | mk cur pen red =>
        cases cur <;> simp
  · have hres : trimStreamData cutoff s =
        ((s.messages.takeWhile (fun e => decide (e.timestamp ≤ cutoff))).length,
         { messages := s.messages.drop
             (s.messages.takeWhile (fun e => decide (e.timestamp ≤ cutoff))).length,
           id_index := (s.messages.drop
             (s.messages.takeWhile (fun e => decide (e.timestamp ≤ cutoff))).length).enum.map
               (fun p => (p.2.message_id, p.1)),
           groups := s.groups.map (fun p => (p.1,
             { cursor := match p.2.cursor with
                 | some c =>
                   if c < (s.messages.takeWhile
                       (fun e => decide (e.timestamp ≤ cutoff))).length then none
                   else some (c - (s.messages.takeWhile
                       (fun e => decide (e.timestamp ≤ cutoff))).length)
                 | none => none,
               pending := ((s.messages.take
                   (s.messages.takeWhile (fun e => decide (e.timestamp ≤ cutoff))).length).map
                     (fun e => e.message_id)).foldl (fun pen id => pen.erase id) p.2.pending,
               redeliver := p.2.redeliver })) }) := by
      unfold trimStreamData
      rw [if_neg hzero]
    have hids_take : (s.messages.take
        (s.messages.takeWhile (fun e => decide (e.timestamp ≤ cutoff))).length).map
          (fun e => e.message_id)
        = (s.messages.filter (fun e => decide (e.timestamp ≤ cutoff))).map
            (fun e => e.message_id) := by
      rw [htakeN, htake]
    have hids_drop : (s.messages.drop
        (s.messages.takeWhile (fun e => decide (e.timestamp ≤ cutoff))).length).map
          (fun e => e.message_id)
        = (s.messages.dropWhile (fun e => decide (e.timestamp ≤ cutoff))).map
            (fun e => e.message_id) := by
      rw [hdropN]
    have hdisj : ∀ id, id ∈ (s.messages.filter
          (fun e => decide (e.timestamp ≤ cutoff))).map (fun e => e.message_id) →
        id ∉ (s.messages.dropWhile (fun e => decide (e.timestamp ≤ cutoff))).map
          (fun e => e.message_id) := by
      have hmapsplit : s.messages.map (fun e => e.message_id)
          = (s.messages.takeWhile (fun e => decide (e.timestamp ≤ cutoff))).map
              (fun e => e.message_id)
            ++ (s.messages.dropWhile (fun e => decide (e.timestamp ≤ cutoff))).map
              (fun e => e.message_id) := by
        rw [← List.map_append, hsplit]
      rw [hmapsplit] at hnodup
      have hd := (List.nodup_append.mp hnodup).2.2
      intro id hid
      exact hd (htake ▸ hid)
    refine ⟨by rw [hres, hcount], by rw [hres, hdropN, hdrop], ?_, ?_⟩
    · intro id hid
      rw [hres]
      apply lookup_none_of_not_mem_fst
      rw [enum_map_fst_ids, hids_drop]
      exact hdisj id hid
    · intro grp g2 hg2
      rw [hres]
      show (s.groups.map _).lookup grp = _
      rw [lookup_map_assoc (fun g : ConsumerGroup =>
        ({ cursor := match g.cursor with
             | some c =>
               if c < (s.messages.takeWhile
                   (fun e => decide (e.timestamp ≤ cutoff))).length then none
               else some (c - (s.messages.takeWhile
                   (fun e => decide (e.timestamp ≤ cutoff))).length)
             | none => none,
           pending := ((s.messages.take
               (s.messages.takeWhile (fun e => decide (e.timestamp ≤ cutoff))).length).map
                 (fun e => e.message_id)).foldl (fun pen id => pen.erase id) g.pending,
           redeliver := g.redeliver } : ConsumerGroup)) grp s.groups]
      rw [hg2]
      simp only [Option.map_some']
      rw [foldl_erase_eq_sdiff, hids_take, hcount]

/-- C3: `trim_stream(subject, max_age)` on a log sorted by publish
timestamp with distinct ids removes exactly the entries with
`timestamp ≤ now − max_age` and returns their count; a non-existent
subject returns 0 with the store untouched; the removed ids are gone
from the rebuilt id index and subtracted from every group's pending set;
and every group cursor becomes absent when it pointed below
`expired_count` and is shifted down by `expired_count` otherwise. -/
theorem c3_trim_stream_spec (now max_age : Nat) (st : StreamStore) (subject : String)
    (s : StreamData)
    (hs : st.streams.lookup subject = some s)
    (hsort : s.messages.Pairwise (fun a b => a.timestamp ≤ b.timestamp))
    (hnodup : (s.messages.map (fun e => e.message_id)).Nodup) :
    (∀ (st2 : StreamStore) (subj2 : String), st2.streams.lookup subj2 = none →
        trim_stream now st2 subj2 max_age = (0, st2))
    ∧ (trim_stream now st subject max_age).1
        = s.messages.countP (fun e => e.timestamp ≤ now - max_age)
    ∧ messagesOf (trim_stream now st subject max_age).2 subject
        = s.messages.filter (fun e => !decide (e.timestamp ≤ now - max_age))
    ∧ (∀ id, id ∈ (s.messages.filter (fun e => e.timestamp ≤ now - max_age)).map
          (fun e => e.message_id) →
        (idIndexOf (trim_stream now st subject max_age).2 subject).lookup id = none)
    ∧ (∀ grp g2, s.groups.lookup grp = some g2 →
        groupOf (trim_stream now st subject max_age).2 subject grp
          = some ⟨(match g2.cursor with
              | some c =>
                if c < s.messages.countP (fun e => e.timestamp ≤ now - max_age) then none
                else some (c - s.messages.countP (fun e => e.timestamp ≤ now - max_age))
              | none => none),
            g2.pending \ ((s.messages.filter (fun e => e.timestamp ≤ now - max_age)).map
              (fun e => e.message_id)).toFinset,
            g2.redeliver⟩) := by
  obtain ⟨h1, h2, h3, h4⟩ := trimStreamData_spec (now - max_age) s hsort hnodup
  have htr : trim_stream now st subject max_age
      = ((trimStreamData (now - max_age) s).1,
         ⟨assocAdjust st.streams subject (fun _ => (trimStreamData (now - max_age) s).2)⟩) := by
    simp only [trim_stream, hs]
  have hlookup : (trim_stream now st subject max_age).2.streams.lookup subject
      = some (trimStreamData (now - max_age) s).2 := by
    rw [htr]
    show (assocAdjust st.streams subject _).lookup subject = _
    rw [assocAdjust_lookup_self, hs]
    rfl
  refine ⟨?_, ?_, ?_, ?_, ?_⟩
  · intro st2 subj2 hnone
    simp only [trim_stream, hnone]
  · rw [htr]
    exact h1
  · unfold messagesOf
    rw [hlookup]
    exact h2
  · intro id hid
    unfold idIndexOf
    rw [hlookup]
    exact h3 id hid
  · intro grp g2 hg2
    unfold groupOf
    rw [hlookup]
    simp only [Option.some_bind]
    exact h4 grp g2 hg2

/-- Witness for C3 on a two-message log with one expired entry. -/
theorem c3_trim_stream_spec_witness :
    (trim_stream 60 ⟨[("gbe.x.y",
        ⟨[⟨"a1", "gbe.x.y", 10, none, []⟩, ⟨"a2", "gbe.x.y", 100, none, []⟩],
         [("a1", 0), ("a2", 1)],
         [("grp", ⟨some 1, {"a1", "a2"}, []⟩)]⟩)]⟩ "gbe.x.y" 10).1 = 1
    ∧ messagesOf (trim_stream 60 ⟨[("gbe.x.y",
        ⟨[⟨"a1", "gbe.x.y", 10, none, []⟩, ⟨"a2", "gbe.x.y", 100, none, []⟩],
         [("a1", 0), ("a2", 1)],
         [("grp", ⟨some 1, {"a1", "a2"}, []⟩)]⟩)]⟩ "gbe.x.y" 10).2 "gbe.x.y"
      = [⟨"a2", "gbe.x.y", 100, none, []⟩]
    ∧ (idIndexOf (trim_stream 60 ⟨[("gbe.x.y",
        ⟨[⟨"a1", "gbe.x.y", 10, none, []⟩, ⟨"a2", "gbe.x.y", 100, none, []⟩],
         [("a1", 0), ("a2", 1)],
         [("grp", ⟨some 1, {"a1", "a2"}, []⟩)]⟩)]⟩ "gbe.x.y" 10).2 "gbe.x.y").lookup "a1"
      = none
    ∧ groupOf (trim_stream 60 ⟨[("gbe.x.y",
        ⟨[⟨"a1", "gbe.x.y", 10, none, []⟩, ⟨"a2", "gbe.x.y", 100, none, []⟩],
         [("a1", 0), ("a2", 1)],
         [("grp", ⟨some 1, {"a1", "a2"}, []⟩)]⟩)]⟩ "gbe.x.y" 10).2 "gbe.x.y" "grp"
      = some ⟨some 0, {"a2"}, []⟩ := by
  have h := c3_trim_stream_spec 60 10
    ⟨[("gbe.x.y",
       ⟨[⟨"a1", "gbe.x.y", 10, none, []⟩, ⟨"a2", "gbe.x.y", 100, none, []⟩],
        [("a1", 0), ("a2", 1)],
        [("grp", ⟨some 1, {"a1", "a2"}, []⟩)]⟩)]⟩ "gbe.x.y"
    ⟨[⟨"a1", "gbe.x.y", 10, none, []⟩, ⟨"a2", "gbe.x.y", 100, none, []⟩],
     [("a1", 0), ("a2", 1)],
     [("grp", ⟨some 1, {"a1", "a2"}, []⟩)]⟩
    rfl (by decide) (by decide)
  refine ⟨?_, ?_, ?_, ?_⟩
  · rw [h.2.1]
    decide
  · rw [h.2.2.1]
    decide
  · exact h.2.2.2.1 "a1" (by decide)
  · rw [h.2.2.2.2 "grp" ⟨some 1, {"a1", "a2"}, []⟩ rfl]
    decide

/-- Witness for C7's amended theorem at concrete inputs. -/
theorem c7_amended_prefixed_id_validation_witness :
    JobId.new "job_a" = Except.ok ⟨"job_a"⟩
    ∧ TaskId.new "daily" = Except.error (JobsDomainError.invalidTaskId "daily") := by
  have h1 := (c7_amended_prefixed_id_validation "job_a" (by decide)).1.1
  have h2 := (c7_amended_prefixed_id_validation "daily" (by decide)).2.1.2
  exact ⟨h1.mpr ⟨⟨['a'], by decide⟩, by decide, by decide⟩, h2 (by decide)⟩

end GbeNexus
